import Mathlib

/-!
# Verification of the ESIO core against its specification

Shallow embedding of the ESIO restart-file library:
* `restart-rename.c` (template parsing, `restart_nextindex`, `restart_rename`),
* `esio.c` (handle/file lifecycle, field metadata codec, field transfer engine),
* the layout-0 transfer kernel (`layout0.c`, included from `plane_int.c`).

C strings are modelled as `List Char` without interior NUL characters; reading a
character at or past the end of the list yields the NUL terminator
(`Char.ofNat 0`), which mirrors pointer walks over NUL-terminated buffers.
Machine `int` arithmetic never overflows in the modelled paths except where an
explicit `INT_MAX` comparison appears in the source; quantities are `Int`/`Nat`
with the explicit bound `intMaxC`.
-/

/-- The closed outcome enumeration of `error.h` (values not in scope here;
`ESIO_SUCCESS` is 0 and every other member is non-zero, so the enumeration is
modelled abstractly with distinguished constructors). -/
inductive esio_status where
  | ESIO_SUCCESS
  | ESIO_EFAULT
  | ESIO_EINVAL
  | ESIO_EFAILED
  | ESIO_ESANITY
  | ESIO_ENOMEM
deriving DecidableEq, Repr

/-- C string indexing: `s[i]`, with the NUL terminator past the end. -/
def cAt (s : List Char) (i : Nat) : Char := s.getD i (Char.ofNat 0)

/-- `isdigit` from `<ctype.h>` restricted to the ASCII digits. -/
def isdigitC (c : Char) : Bool := '0' ≤ c && c ≤ '9'

/-- The forward scan of `restart_nextindex`:
`while (tmpl[i] && name[i] && tmpl[i] == name[i]) ++i;`.
Returns the resulting index `i` (the length of the longest common prefix,
stopping at either terminator). -/
def scanEq : List Char → List Char → Nat
  | a :: t, b :: n => if a = b then scanEq t n + 1 else 0
  | _, _ => 0

/-- Helper for `lastHashFrom`: walks the remaining characters (current position
`k`), updating the last-seen `'#'` index `j`. -/
def lastHashGo : List Char → Nat → Nat → Nat
  | [], _, j => j
  | c :: rest, k, j => lastHashGo rest (k + 1) (if c = '#' then k else j)

/-- The middle scan of `restart_nextindex`: starting from `j = i`, walk
`k = i+1` to the terminator recording the last index holding `'#'`. -/
def lastHashFrom (t : List Char) (i : Nat) : Nat :=
  lastHashGo (t.drop (i + 1)) (i + 1) i

/-- The backward scan of `restart_nextindex`:
`while (k > j && l > i && tmpl[k] == name[l]) { --k; --l; }`, returning the
final `(k, l)`.  Structural recursion on `k` (the loop requires `k > j ≥ 0`
to continue, so `k = 0` always exits). -/
def backScan (t n : List Char) (j i : Nat) : Nat → Nat → Nat × Nat
  | 0, l => (0, l)
  | Nat.succ k, l =>
    if Nat.succ k > j ∧ l > i ∧ cAt t (Nat.succ k) = cAt n l then
      backScan t n j i k (l - 1)
    else (Nat.succ k, l)

/-- Value of a decimal digit string (the digits consumed by `strtoul`). -/
def digitsVal (l : List Char) : Nat :=
  l.foldl (fun a c => a * 10 + (c.toNat - 48)) 0

/-- `INT_MAX` on the modelled ILP32/LP64 platforms. -/
def intMaxC : Int := 2147483647

/-- `restart_nextindex(tmpl, name, errval)` from `restart-rename.c`.

The `strtoul` call is modelled exactly on the guarded path: the preceding
`isdigit(name[i])` check guarantees the parse starts at a digit, so the
conversion consumes the maximal digit run from position `i` and `endptr`
lands right after it; `strtoul`'s `ULONG_MAX` clamping cannot change the
outcome of the `curr > INT_MAX - 1` comparison, so the exact value is used. -/
def restart_nextindex (tmpl name : List Char) (errval : Int) : Int :=
  let i := scanEq tmpl name
  if tmpl.length ≤ i then errval          -- tmpl[i] == 0: usage error
  else if cAt tmpl i ≠ '#' then 0         -- mismatch
  else if ¬ isdigitC (cAt name i) then 0  -- mismatch and/or leading sign
  else
    let j := lastHashFrom tmpl i
    let kl := backScan tmpl name j i tmpl.length name.length
    if cAt tmpl kl.1 ≠ '#' then 0         -- mismatch
    else
      let ds := (name.drop i).takeWhile isdigitC
      if i + ds.length ≠ kl.2 + 1 then 0  -- endptr != name + l + 1
      else if (digitsVal ds : Int) > intMaxC - 1 then errval  -- overflow
      else if ¬ ((List.range' i (j - i)).all (fun m => cAt tmpl m = '#')) then
        errval                            -- multiple hash sequences
      else (digitsVal ds : Int) + 1

/-- Substitution of a decimal string for the `'#'` run of a template (the
`substitute(T, '#', d)` operation quantified over in the specification). -/
def hashSubstitute (t d : List Char) : List Char :=
  t.takeWhile (· ≠ '#') ++ d ++ (t.dropWhile (· ≠ '#')).dropWhile (· = '#')

/-- Index of the first `'#'` of a template (its length when there is none). -/
def firstHashPos (t : List Char) : Nat := (t.takeWhile (· ≠ '#')).length

/-- `p` is a (character-wise) leading segment of `l`. -/
def leadsWith : List Char → List Char → Bool
  | [], _ => true
  | _ :: _, [] => false
  | a :: ps, b :: ls => a = b && leadsWith ps ls

/-- No `'#'` occurs in `l`. -/
def hashFreeB (l : List Char) : Bool := l.all (fun c => c ≠ '#')

/-- Every character of `l` is a decimal digit. -/
def allDigitsB (l : List Char) : Bool := l.all isdigitC

/-- The names `restart_nextindex` accepts against the single-run template
`prefix P, run of r hashes, suffix S`: the template's literal text up to some
point strictly inside the `'#'` run (so the name may itself begin with fewer
than `r` literal `'#'` characters after the prefix), then a nonempty decimal
digit string, then exactly the suffix. -/
def relaxedMatchB (P : List Char) (r : Nat) (S name : List Char) : Bool :=
  let h := ((name.drop P.length).takeWhile (fun c => c = '#')).length
  let ds := (name.drop (P.length + h)).takeWhile isdigitC
  leadsWith P name && decide (h < r) && decide (ds ≠ []) &&
    decide (name.drop (P.length + h + ds.length) = S)

/-- Fueled decimal digit count (structural recursion so that concrete values
reduce in the kernel); `ndigits10F (fuel) n` with `fuel ≥ n`. -/
def ndigits10F : Nat → Nat → Nat
  | 0, _ => 1
  | fuel + 1, n => if n < 10 then 1 else ndigits10F fuel (n / 10) + 1

/-- Number of decimal digits of `n`. -/
def ndigits10 (n : Nat) : Nat := ndigits10F n n

/-- `ceil(log(m)/log(10))` as computed by `restart_rename` for `m ≥ 1`,
in exact integer arithmetic.  For `m ≥ 2` this is the digit count of `m - 1`;
for `m ≤ 1` the logarithm is non-positive and the ceiling is `0`.  (The C
code computes it in `double`; for the arguments arising in the claims the
floating-point value is far from an integer boundary, so the exact value
agrees.) -/
def ceilLog10 (m : Nat) : Nat := if m ≤ 1 then 0 else ndigits10 (m - 1)

/-- The index field width `ndigits` computed by `restart_rename`: the length
of the template's `'#'` run, widened to `ceil(log10(keep_howmany-1))`
(to `1` when `keep_howmany == 1`) when the run is shorter. -/
def restart_ndigits (runLen : Nat) (keep : Int) : Nat :=
  let n : Nat := if keep = 1 then 1 else ceilLog10 (keep - 1).toNat
  max runLen n

/-- `snprintf`'s `"%*d"` conversion with non-negative width: the decimal
rendering of `v`, right-justified in a field of `w` SPACES (note: the format
used by `restart_rename` has no `0` flag, so the padding is spaces). -/
def fmtIntWidth (w : Nat) (v : Int) : String :=
  let s := toString v
  String.mk (List.replicate (w - s.toList.length) ' ') ++ s

/-- Path normalization performed by the OS: a leading `"./"` (as produced by
the `"%s/%s"` joins with `dirname = "."`) resolves to the bare name. -/
def normP : List Char → List Char
  | '.' :: '/' :: rest => normP rest
  | p => p

def normPath (s : String) : String := String.mk (normP s.toList)

/-- The flat directory/file-content model used for `restart_rename`: a map
from (normalized) path strings to file identities, so that renames can be
traced through the rotation. -/
def fsLookup : List (String × Nat) → String → Option Nat
  | [], _ => none
  | (k, v) :: rest, q => if normPath k = normPath q then some v else fsLookup rest q

def fsRemove (fs : List (String × Nat)) (q : String) : List (String × Nat) :=
  fs.filter (fun kv => normPath kv.1 ≠ normPath q)

def fsSet (fs : List (String × Nat)) (q : String) (v : Nat) : List (String × Nat) :=
  fsRemove fs q ++ [(normPath q, v)]

/-- `rename(2)`: fails (`none`) when the source does not exist; otherwise
moves the content, silently replacing any existing destination. -/
def fsRename (fs : List (String × Nat)) (a b : String) : Option (List (String × Nat)) :=
  match fsLookup fs a with
  | none => none
  | some v => some (fsSet (fsRemove fs a) b v)

/-- The names in directory `dir` (model of the entries `scandir` offers to the
filter; the `"."` and `".."` entries are omitted — the filter rejects them for
every template arising here). -/
def dirEntries (fs : List (String × Nat)) (dir : String) : List String :=
  if dir = "." then
    (fs.map (fun kv => normPath kv.1)).filter (fun k => ¬ (k.toList.contains '/'))
  else
    (fs.map (fun kv => normPath kv.1)).filterMap (fun k =>
      let pre := dir ++ "/"
      if pre.toList.isPrefixOf k.toList ∧
         ¬ ((k.toList.drop pre.toList.length).contains '/') then
        some (String.mk (k.toList.drop pre.toList.length))
      else none)

/-- Substrate model of glibc `strverscmp`, fueled so concrete comparisons
reduce in the kernel: plain character comparison except that maximal decimal
runs compare as numbers — a run with more leading zeros orders first, then
shorter runs order first, then lexicographically. Agrees with glibc on the
fixed-width numeric file names compared here. -/
def verNumCmp (a b : List Char) : Ordering :=
  let za := (a.takeWhile (· = '0')).length
  let zb := (b.takeWhile (· = '0')).length
  if za ≠ zb then compare zb za
  else if a.length ≠ b.length then compare a.length b.length
  else compare a b

def strverscmpF : Nat → List Char → List Char → Ordering
  | 0, _, _ => Ordering.eq
  | _, [], [] => Ordering.eq
  | _, [], _ :: _ => Ordering.lt
  | _, _ :: _, [] => Ordering.gt
  | fuel + 1, x :: xs, y :: ys =>
    if isdigitC x ∧ isdigitC y then
      match verNumCmp ((x :: xs).takeWhile isdigitC) ((y :: ys).takeWhile isdigitC) with
      | Ordering.eq => strverscmpF fuel ((x :: xs).dropWhile isdigitC)
                                        ((y :: ys).dropWhile isdigitC)
      | o => o
    else if x = y then strverscmpF fuel xs ys
    else compare x y

def strverscmpM (a b : String) : Ordering :=
  strverscmpF (a.toList.length + b.toList.length + 1) a.toList b.toList

/-- `a` sorts no later than `b` under `strverscmpM`. -/
def verLe (a b : String) : Bool := strverscmpM a b ≠ Ordering.gt

def insertVer (x : String) : List String → List String
  | [] => [x]
  | y :: ys => if verLe x y then x :: y :: ys else y :: insertVer x ys

/-- The sorted order `scandir` returns under the `compar`/`strverscmp`
comparator (insertion sort; directory entries are distinct names, so any
comparison sort yields this order). -/
def sortVer (l : List String) : List String := l.foldr insertVer []

/-- `dirname`/`basename` split used on the destination template (modelled for
paths that do not end in `'/'`, which matches `libgen` there). -/
def splitPath (p : String) : String × String :=
  let cs := p.toList
  let base := (cs.reverse.takeWhile (· ≠ '/')).reverse
  if base.length = cs.length then (".", p)
  else
    let dirCs := cs.take (cs.length - base.length - 1)
    (if dirCs = [] then "/" else String.mk dirCs, String.mk base)

/-- Split of the template basename at its `'#'` run: the prefix before the
first `'#'`, the run length `ndigits`, and the suffix after the run
(`none` when the basename has no `'#'` at all). -/
def hashSplit (base : String) : Option (String × Nat × String) :=
  let cs := base.toList
  match cs.dropWhile (· ≠ '#') with
  | [] => none
  | rest =>
    some (String.mk (cs.takeWhile (· ≠ '#')),
          (rest.takeWhile (· = '#')).length,
          String.mk (rest.dropWhile (· = '#')))

/-- The per-entry loop of `restart_rename` (`while (n--) …` over the scandir
results in reverse sorted order): skip entries whose target index is
malformed or `≥ keep_howmany`; rename the rest to
`dir/pre{next:%*d}suf`; a failing `rename` aborts with `ESIO_EFAILED`,
leaving the renames already performed in place. -/
def restart_process (fs : List (String × Nat)) (dir base pre suf : String)
    (nd : Nat) (keep : Int) : List String → List (String × Nat) × Option esio_status
  | [] => (fs, none)
  | nm :: rest =>
    let next := restart_nextindex base.toList nm.toList (-1)
    if next ≤ 0 ∨ keep ≤ next then restart_process fs dir base pre suf nd keep rest
    else
      match fsRename fs (dir ++ "/" ++ nm)
                        (dir ++ "/" ++ pre ++ fmtIntWidth nd next ++ suf) with
      | none => (fs, some esio_status.ESIO_EFAILED)
      | some fs2 => restart_process fs2 dir base pre suf nd keep rest

/-- `restart_rename(src_filename, dst_template, keep_howmany)` from
`restart-rename.c`, acting on the flat filesystem model.  (The `NULL`
argument guards, `malloc` failures, and error-hook invocations are not
observable in this model; every error path returns its code.) -/
def restart_rename (fs : List (String × Nat)) (src tmpl : String) (keep : Int) :
    List (String × Nat) × esio_status :=
  if keep < 1 then (fs, esio_status.ESIO_EINVAL)
  else if (fsLookup fs src).isNone then (fs, esio_status.ESIO_EFAILED)  -- stat(2)
  else
    let db := splitPath tmpl
    match hashSplit db.2 with
    | none => (fs, esio_status.ESIO_EINVAL)
    | some (pre, runLen, suf) =>
      if suf.toList.contains '#' then (fs, esio_status.ESIO_EINVAL)
      else
        let nd := restart_ndigits runLen keep
        let cand := (dirEntries fs db.1).filter
          (fun nm => restart_nextindex db.2.toList nm.toList 0 ≠ 0)
        match restart_process fs db.1 db.2 pre suf nd keep (sortVer cand).reverse with
        | (fs2, some e) => (fs2, e)
        | (fs2, none) =>
          match fsRename fs2 src (db.1 ++ "/" ++ pre ++ fmtIntWidth nd 0 ++ suf) with
          | none => (fs2, esio_status.ESIO_EFAILED)
          | some fs3 => (fs3, esio_status.ESIO_SUCCESS)

/-! ## The esio engine (`esio.c`)

The HDF5 container substrate is modelled as follows: a container (`H5File`)
is a list of named datasets; a dataset carries its stored element type, its
simple 3-D dataspace extents, the optional integer-vector attribute
`"esio_metadata"`, and its cell contents as a total function on `Int`
coordinates (cells never written hold the default fill value `0`).  Element
values are carried opaquely as `Int`; conversions between the native numeric
types always exist (`H5Tfind`) and are value-preserving in this model.
The process-wide HDF5 error sink (`H5Eget_auto2`/`H5Eset_auto2`) is an
optional handler identifier; an HDF5-level failure invokes the installed
handler, which the model records in a log.  ESIO's own error hook
(`ESIO_ERROR*`) is recorded as a log of reported codes. -/

/-- The three element types used by the scalar field interface. -/
inductive H5T where
  | native_double
  | native_float
  | native_int
deriving DecidableEq, Repr

structure H5Dataset where
  dtype : H5T
  space : Int × Int × Int
  meta : Option (List Int)
  data : Int → Int → Int → Int

abbrev H5File := List (String × H5Dataset)

/-- Observable process/filesystem state threaded through the engine:
the containers on disk, the HDF5 error sink with its invocation log, the
ESIO error-hook invocation log, and a substrate fault flag making
`H5Fclose` fail (to exercise the error-reporting paths). -/
structure EsioWorld where
  fs : List (String × H5File)
  h5_handler : Option Int
  h5_log : List Int
  esio_log : List esio_status
  h5_close_fails : Bool

/-- `struct esio_state_s` (the communicator and info object are reduced to
their null/non-null status, the only property the modelled paths consult). -/
structure esio_state_s where
  file_id : Option String
  layout_tag : Int
  comm : Option Int
  info : Option Int

/-- `ESIO_ERROR`/`ESIO_ERROR_VAL`: invoke the installed ESIO error hook. -/
def esio_error (w : EsioWorld) (c : esio_status) : EsioWorld :=
  { w with esio_log := w.esio_log ++ [c] }

/-- An HDF5-level failure invokes the currently installed HDF5 handler. -/
def h5_raise (w : EsioWorld) : EsioWorld :=
  match w.h5_handler with
  | some h => { w with h5_log := w.h5_log ++ [h] }
  | none => w

/-- Association-list lookup (dataset by name, container by path). -/
def lookupA {α : Type} : List (String × α) → String → Option α
  | [], _ => none
  | (k, v) :: rest, q => if k = q then some v else lookupA rest q

/-- Association-list update: replace the first binding of `k`, else append. -/
def updateA {α : Type} : List (String × α) → String → α → List (String × α)
  | [], k, v => [(k, v)]
  | (k0, v0) :: rest, k, v =>
    if k0 = k then (k, v) :: rest else (k0, v0) :: updateA rest k v

/-- `esio_type_ncomponents` for the scalar element types: the `H5T_FLOAT`
and `H5T_INTEGER` classes yield a single component. -/
def esio_type_ncomponents : H5T → Int
  | H5T.native_double => 1
  | H5T.native_float => 1
  | H5T.native_int => 1

/-- `H5Tfind`: a conversion path exists between any two of the native
numeric types. -/
def H5Tfind_exists : H5T → H5T → Bool := fun _ _ => true

/-- `ESIO_MAJOR_VERSION`, `ESIO_MINOR_VERSION`, `ESIO_POINT_VERSION`
(from `version.h`; the sources identify themselves as "esio 0.0.1"). -/
def esio_major_version : Int := 0
def esio_minor_version : Int := 0
def esio_point_version : Int := 1

/-- `ESIO_FIELD_METADATA_SIZE`. -/
def esio_field_metadata_size : Nat := 8

/-- The sentinel `INT_MIN + 999983` of `esio_field_metadata_read`. -/
def metadataSentinel : Int := -2147483648 + 999983

/-! ### Layout 0 -/

/-- The enumeration order in which the substrate pairs the layout-0 memory
selection with the file selection: the memory hyperslab union enumerates, for
each `(k, j)`, the run at offsets `k*cstride + j*bstride + i*astride`
(`i < alocal`), and the contiguous file box enumerates `(cstart+k, bstart+j,
astart+i)` in row-major order; under the engine's monotone strides the two
orders coincide triple-by-triple. -/
def slabTriples (clocal blocal alocal : Int) : List (Int × Int × Int) :=
  (List.range clocal.toNat).flatMap (fun k =>
    (List.range blocal.toNat).flatMap (fun j =>
      (List.range alocal.toNat).map (fun i => ((k : Int), (j : Int), (i : Int)))))

/-- The layout-0 field writer kernel (`layout0.c`, `OPFUNC = H5Dwrite`):
scatter the strided memory selection of `field` into the contiguous file box
at `(cstart, bstart, astart)` of extent `(clocal, blocal, alocal)`.  The
`*global` arguments are unused, as in the source.  Selections are assumed to
lie within the dataset extents (the engine's callers guarantee this for valid
decompositions). -/
def esio_layout0_field_writer (d : H5Dataset) (field : Int → Int)
    (cglobal cstart clocal cstride bglobal bstart blocal bstride
     aglobal astart alocal astride : Int) (t : H5T) : H5Dataset :=
  let _ := (cglobal, bglobal, aglobal, t)
  { d with data := fun c b a =>
      if cstart ≤ c ∧ c < cstart + clocal ∧ bstart ≤ b ∧ b < bstart + blocal ∧
         astart ≤ a ∧ a < astart + alocal then
        field ((c - cstart) * cstride + (b - bstart) * bstride +
               (a - astart) * astride)
      else d.data c b a }

/-- The layout-0 field reader kernel (`layout0.c`, `OPFUNC = H5Dread`):
gather the contiguous file box into the strided memory selection, leaving
unselected memory untouched. -/
def esio_layout0_field_reader (d : H5Dataset) (field : Int → Int)
    (cglobal cstart clocal cstride bglobal bstart blocal bstride
     aglobal astart alocal astride : Int) (t : H5T) : Int → Int :=
  let _ := (cglobal, bglobal, aglobal, t)
  fun off =>
    match (slabTriples clocal blocal alocal).find? (fun kji =>
        decide (kji.1 * cstride + kji.2.1 * bstride + kji.2.2 * astride = off)) with
    | some (k, j, i) => d.data (cstart + k) (bstart + j) (astart + i)
    | none => field off

/-- Modelled from the spec: `esio_layout0_filespace_creator` (its definition
lives in `layout.c`, which is not among the sources) — §4.2: the baseline
layout places the field as a single contiguous 3-D dataset with the natural
`(C, B, A)` ordering, i.e. a simple dataspace of extents `(nc, nb, na)`. -/
def esio_layout0_filespace_creator (nc nb na : Int) : Int × Int × Int :=
  (nc, nb, na)

/-- Modelled from the spec: the engine's registry writer entry.  The engine in
`esio.c` calls `field_writer` with three integers per direction and no
strides; §4.6 gives absent/zero strides the meaning "the tight product of the
faster dimensions", so the entry realizes the layout-0 kernel at
`cstride = bsz*asz`, `bstride = asz`, `astride = 1`. -/
def esio_layout0_writer9 (d : H5Dataset) (field : Int → Int)
    (nc cst csz nb bst bsz na ast asz : Int) (t : H5T) : H5Dataset :=
  esio_layout0_field_writer d field nc cst csz (bsz * asz) nb bst bsz asz
    na ast asz 1 t

/-- Modelled from the spec: the engine's registry reader entry (tight
contiguous strides, as for `esio_layout0_writer9`). -/
def esio_layout0_reader9 (d : H5Dataset) (field : Int → Int)
    (nc cst csz nb bst bsz na ast asz : Int) (t : H5T) : Int → Int :=
  esio_layout0_field_reader d field nc cst csz (bsz * asz) nb bst bsz asz
    na ast asz 1 t

/-- A row of the `esio_layout[]` lookup table. -/
structure esio_layout_entry where
  tag : Int
  filespace_creator : Int → Int → Int → Int × Int × Int
  field_writer : H5Dataset → (Int → Int) → Int → Int → Int → Int → Int → Int →
    Int → Int → Int → H5T → H5Dataset
  field_reader : H5Dataset → (Int → Int) → Int → Int → Int → Int → Int → Int →
    Int → Int → Int → H5T → (Int → Int)

/-- The `esio_layout[]` table: the single layout 0. -/
def esio_layout : List esio_layout_entry :=
  [{ tag := 0,
     filespace_creator := esio_layout0_filespace_creator,
     field_writer := esio_layout0_writer9,
     field_reader := esio_layout0_reader9 }]

/-- `esio_nlayout = sizeof(esio_layout)/sizeof(esio_layout[0])`. -/
def esio_nlayout : Int := 1

/-- Indexing `esio_layout[tag]`: a table entry for an in-range tag;
out-of-range indexing is undefined behavior in C and yields `none` here
(every use turns `none` into `ESIO_ESANITY`). -/
def layoutGet (tag : Int) : Option esio_layout_entry :=
  if 0 ≤ tag then esio_layout.get? tag.toNat else none

/-! ### Metadata codec and lifecycle operations -/

/-- `esio_field_metadata_write`: attach the 8-integer `"esio_metadata"`
attribute to the named dataset (`H5LTset_attribute_int` fails when the
object does not exist). -/
def esio_field_metadata_write (f : H5File) (name : String)
    (layout_tag nc nb na : Int) (t : H5T) : Option H5File :=
  let md := [esio_major_version, esio_minor_version, esio_point_version,
             layout_tag, nc, nb, na, esio_type_ncomponents t]
  match lookupA f name with
  | none => none
  | some ds => some (updateA f name { ds with meta := some md })

/-- `esio_field_metadata_read`: save and silence the HDF5 error handler, read
the `"esio_metadata"` attribute into a 9-slot scratch buffer whose last slot
holds a sentinel, restore the handler, check the sentinel, and on success
populate `(layout_tag, nc, nb, na, ncomponents)` and sanity-check the tag.

Returns `(world, err ≥ 0, outputs)`.  As in the C, a sentinel mismatch or an
unknown layout tag reports `ESIO_ESANITY` to the ESIO hook but still returns
the raw `H5LTget_attribute_int` status; on the sentinel-mismatch path the
output locals are left indeterminate in C (modelled as zeros).  Attribute
slots past a too-short stored attribute likewise read as the indeterminate
value `0`. -/
def esio_field_metadata_read (w : EsioWorld) (f : H5File) (name : String) :
    EsioWorld × Bool × (Int × Int × Int × Int × Int) :=
  let saved := w.h5_handler
  let w1 := { w with h5_handler := none }
  let attr : Option (List Int) :=
    match lookupA f name with
    | some ds => ds.meta
    | none => none
  let w2 := match attr with
            | none => h5_raise w1   -- the silenced handler is (not) invoked
            | some _ => w1
  let w3 := { w2 with h5_handler := saved }
  match attr with
  | none => (w3, false, (0, 0, 0, 0, 0))
  | some l =>
    let slot8 := if 8 < l.length then l.getD 8 0 else metadataSentinel
    if slot8 ≠ metadataSentinel then
      (esio_error w3 esio_status.ESIO_ESANITY, true, (0, 0, 0, 0, 0))
    else
      let tg := l.getD 3 0
      let out := (tg, l.getD 4 0, l.getD 5 0, l.getD 6 0, l.getD 7 0)
      if tg < 0 ∨ esio_nlayout ≤ tg then
        (esio_error w3 esio_status.ESIO_ESANITY, true, out)
      else (w3, true, out)

/-- `esio_file_create` (collective): refuse when a container is already open;
with `overwrite` truncate/create, otherwise fail on an existing path (the
`H5Fcreate` failure invokes the HDF5 handler). -/
def esio_file_create (w : EsioWorld) (s : esio_state_s) (file : String)
    (overwrite : Bool) : EsioWorld × esio_state_s × esio_status :=
  match s.file_id with
  | some _ => (esio_error w esio_status.ESIO_EINVAL, s, esio_status.ESIO_EINVAL)
  | none =>
    if overwrite then
      ({ w with fs := updateA w.fs file [] },
       { s with file_id := some file }, esio_status.ESIO_SUCCESS)
    else match lookupA w.fs file with
      | some _ =>
        (esio_error (h5_raise w) esio_status.ESIO_EFAILED, s,
         esio_status.ESIO_EFAILED)
      | none =>
        ({ w with fs := updateA w.fs file [] },
         { s with file_id := some file }, esio_status.ESIO_SUCCESS)

/-- `esio_file_open` (collective): refuse when a container is already open;
fail when the path does not exist.  The read-write flag restricts later
operations only inside the substrate and is not tracked. -/
def esio_file_open (w : EsioWorld) (s : esio_state_s) (file : String)
    (readwrite : Bool) : EsioWorld × esio_state_s × esio_status :=
  let _ := readwrite
  match s.file_id with
  | some _ => (esio_error w esio_status.ESIO_EINVAL, s, esio_status.ESIO_EINVAL)
  | none =>
    match lookupA w.fs file with
    | none =>
      (esio_error (h5_raise w) esio_status.ESIO_EFAILED, s,
       esio_status.ESIO_EFAILED)
    | some _ => (w, { s with file_id := some file }, esio_status.ESIO_SUCCESS)

/-- `esio_file_close`: `ESIO_EINVAL` when no file is open; on an `H5Fclose`
failure report `ESIO_EFAILED` and leave `file_id` set (the C returns before
resetting it); otherwise clear `file_id`. -/
def esio_file_close (w : EsioWorld) (s : esio_state_s) :
    EsioWorld × esio_state_s × esio_status :=
  match s.file_id with
  | none => (esio_error w esio_status.ESIO_EINVAL, s, esio_status.ESIO_EINVAL)
  | some _ =>
    if w.h5_close_fails then
      (esio_error w esio_status.ESIO_EFAILED, s, esio_status.ESIO_EFAILED)
    else (w, { s with file_id := none }, esio_status.ESIO_SUCCESS)

/-- `esio_finalize(s)`: a null handle is a no-op; otherwise force-close any
still-open container (ignoring the result), free the communicator and info
object (`ESIO_MPICHKR` reports but ignores failures; the frees succeed in this
model), free the handle, and return `ESIO_SUCCESS` unconditionally. -/
def esio_finalize (w : EsioWorld) (s : Option esio_state_s) :
    EsioWorld × esio_status :=
  match s with
  | none => (w, esio_status.ESIO_SUCCESS)
  | some st =>
    let wc := match st.file_id with
              | some _ => (esio_file_close w st).1
              | none => w
    (wc, esio_status.ESIO_SUCCESS)

/-! ### The field transfer engine -/

/-- The nine argument validations shared by `esio_field_write_internal` and
`esio_field_read_internal` (each failing check raises `ESIO_EINVAL`; they are
combined since all observables agree). -/
def esio_validate_decomp (nc cst csz nb bst bsz na ast asz : Int) : Prop :=
  0 ≤ nc ∧ 0 ≤ cst ∧ 1 ≤ csz ∧ 0 ≤ nb ∧ 0 ≤ bst ∧ 1 ≤ bsz ∧
  0 ≤ na ∧ 0 ≤ ast ∧ 1 ≤ asz

instance (nc cst csz nb bst bsz na ast asz : Int) :
    Decidable (esio_validate_decomp nc cst csz nb bst bsz na ast asz) := by
  unfold esio_validate_decomp
  infer_instance

/-- `esio_field_create`: sanity-check the active layout tag against the
table, build the filespace with the active layout's creator, create the
dataset (`H5Dcreate1` fails when the name already exists), and stash the
field's metadata with the active tag. -/
def esio_field_create (w : EsioWorld) (s : esio_state_s) (f : H5File)
    (nc nb na : Int) (name : String) (t : H5T) :
    EsioWorld × Option H5File :=
  match layoutGet s.layout_tag with
  | none => (esio_error w esio_status.ESIO_ESANITY, none)
  | some entry =>
    if entry.tag ≠ s.layout_tag then
      (esio_error w esio_status.ESIO_ESANITY, none)
    else
      let space := entry.filespace_creator nc nb na
      match lookupA f name with
      | some _ => (esio_error w esio_status.ESIO_ESANITY, none)
      | none =>
        let f2 := f ++ [(name, { dtype := t, space := space, meta := none,
                                 data := fun _ _ _ => 0 })]
        match esio_field_metadata_write f2 name s.layout_tag nc nb na t with
        | none => (esio_error w esio_status.ESIO_EFAILED, none)
        | some f3 => (w, some f3)

/-- `esio_field_write_internal`: validate, probe the metadata; on an absent
field create the dataset with the handle's active layout and dispatch its
writer; on an existing field check the caller's extents and component count
against the stored metadata (`ESIO_EINVAL` on mismatch, before any dataset
is opened), check type convertibility, and dispatch the writer of the layout
stored in the metadata. -/
def esio_field_write_internal (w : EsioWorld) (s : esio_state_s) (name : String)
    (field : Int → Int) (nc cst csz nb bst bsz na ast asz : Int) (t : H5T) :
    EsioWorld × esio_state_s × esio_status :=
  match s.file_id with
  | none => (esio_error w esio_status.ESIO_EINVAL, s, esio_status.ESIO_EINVAL)
  | some path =>
    if ¬ esio_validate_decomp nc cst csz nb bst bsz na ast asz then
      (esio_error w esio_status.ESIO_EINVAL, s, esio_status.ESIO_EINVAL)
    else
      let f := (lookupA w.fs path).getD []
      let mres := esio_field_metadata_read w f name
      let w1 := mres.1
      if mres.2.1 then
        -- field already existed
        let md := mres.2.2
        if nc ≠ md.2.1 then
          (esio_error w1 esio_status.ESIO_EINVAL, s, esio_status.ESIO_EINVAL)
        else if nb ≠ md.2.2.1 then
          (esio_error w1 esio_status.ESIO_EINVAL, s, esio_status.ESIO_EINVAL)
        else if na ≠ md.2.2.2.1 then
          (esio_error w1 esio_status.ESIO_EINVAL, s, esio_status.ESIO_EINVAL)
        else if esio_type_ncomponents t ≠ md.2.2.2.2 then
          (esio_error w1 esio_status.ESIO_EINVAL, s, esio_status.ESIO_EINVAL)
        else match lookupA f name with
          | none =>  -- H5Dopen1 failed
            (esio_error w1 esio_status.ESIO_EFAILED, s, esio_status.ESIO_EFAILED)
          | some ds =>
            if ¬ H5Tfind_exists t ds.dtype then
              (esio_error w1 esio_status.ESIO_EINVAL, s, esio_status.ESIO_EINVAL)
            else match layoutGet md.1 with
              | none =>
                (esio_error w1 esio_status.ESIO_ESANITY, s,
                 esio_status.ESIO_ESANITY)
              | some entry =>
                let ds2 := entry.field_writer ds field nc cst csz nb bst bsz
                             na ast asz t
                ({ w1 with fs := updateA w1.fs path (updateA f name ds2) }, s,
                 esio_status.ESIO_SUCCESS)
      else
        -- field did not exist: create it with the active layout
        match esio_field_create w1 s f nc nb na name t with
        | (w2, none) =>
          (w2, s, esio_status.ESIO_EFAILED)
        | (w2, some f2) =>
          match lookupA f2 name, layoutGet s.layout_tag with
          | some ds, some entry =>
            let ds2 := entry.field_writer ds field nc cst csz nb bst bsz
                         na ast asz t
            ({ w2 with fs := updateA w2.fs path (updateA f2 name ds2) }, s,
             esio_status.ESIO_SUCCESS)
          | _, _ =>
            (esio_error w2 esio_status.ESIO_ESANITY, s, esio_status.ESIO_ESANITY)

/-- `esio_field_read_internal`: validate, require the metadata to exist
(`ESIO_EFAILED` otherwise), require the caller's extents and component count
to equal the stored values, check convertibility, and dispatch the reader of
the layout stored in the metadata (the handle's active tag is never
consulted).  Returns the updated world, the caller's buffer after the read,
and the status. -/
def esio_field_read_internal (w : EsioWorld) (s : esio_state_s) (name : String)
    (field : Int → Int) (nc cst csz nb bst bsz na ast asz : Int) (t : H5T) :
    EsioWorld × (Int → Int) × esio_status :=
  match s.file_id with
  | none => (esio_error w esio_status.ESIO_EINVAL, field, esio_status.ESIO_EINVAL)
  | some path =>
    if ¬ esio_validate_decomp nc cst csz nb bst bsz na ast asz then
      (esio_error w esio_status.ESIO_EINVAL, field, esio_status.ESIO_EINVAL)
    else
      let f := (lookupA w.fs path).getD []
      let mres := esio_field_metadata_read w f name
      let w1 := mres.1
      if ¬ mres.2.1 then
        (esio_error w1 esio_status.ESIO_EFAILED, field, esio_status.ESIO_EFAILED)
      else
        let md := mres.2.2
        if nc ≠ md.2.1 then
          (esio_error w1 esio_status.ESIO_EINVAL, field, esio_status.ESIO_EINVAL)
        else if nb ≠ md.2.2.1 then
          (esio_error w1 esio_status.ESIO_EINVAL, field, esio_status.ESIO_EINVAL)
        else if na ≠ md.2.2.2.1 then
          (esio_error w1 esio_status.ESIO_EINVAL, field, esio_status.ESIO_EINVAL)
        else if esio_type_ncomponents t ≠ md.2.2.2.2 then
          (esio_error w1 esio_status.ESIO_EINVAL, field, esio_status.ESIO_EINVAL)
        else match lookupA f name with
          | none =>  -- H5Dopen2 failed
            (esio_error w1 esio_status.ESIO_EFAILED, field,
             esio_status.ESIO_EFAILED)
          | some ds =>
            if ¬ H5Tfind_exists t ds.dtype then
              (esio_error w1 esio_status.ESIO_EINVAL, field,
               esio_status.ESIO_EINVAL)
            else match layoutGet md.1 with
              | none =>
                (esio_error w1 esio_status.ESIO_ESANITY, field,
                 esio_status.ESIO_ESANITY)
              | some entry =>
                (w1,
                 entry.field_reader ds field nc cst csz nb bst bsz na ast asz t,
                 esio_status.ESIO_SUCCESS)

/-- The write–close–open–read pipeline of the round-trip property, returning
the buffer produced by the read together with the four statuses. -/
def esio_roundtrip (w : EsioWorld) (s : esio_state_s) (path name : String)
    (buf buf0 : Int → Int) (nc cst csz nb bst bsz na ast asz : Int) (t : H5T) :
    (Int → Int) × (esio_status × esio_status × esio_status × esio_status) :=
  let r1 := esio_field_write_internal w s name buf nc cst csz nb bst bsz na ast asz t
  let r2 := esio_file_close r1.1 r1.2.1
  let r3 := esio_file_open r2.1 r2.2.1 path false
  let r4 := esio_field_read_internal r3.1 r3.2.1 name buf0 nc cst csz nb bst bsz
              na ast asz t
  (r4.2.1, (r1.2.2, r2.2.2, r3.2.2, r4.2.2))

/-- The condition under which `esio_field_metadata_read`'s scratch-buffer
sentinel is overwritten by a differing value: the stored attribute is longer
than the expected 8-integer tuple and the ninth stored integer is not,
coincidentally, the sentinel itself. -/
def metadataOverflowB (f : H5File) (name : String) : Bool :=
  match lookupA f name with
  | some ds =>
    match ds.meta with
    | some l => decide (8 < l.length) && decide (l.getD 8 0 ≠ metadataSentinel)
    | none => false
  | none => false


/-! ## Arithmetic lemmas for the index field width -/

theorem ndigits10F_pos (fuel n : Nat) : 1 ≤ ndigits10F fuel n := by
  cases fuel with
  | zero => simp [ndigits10F]
  | succ m =>
    simp only [ndigits10F]
    split <;> omega

theorem ndigits10F_spec (fuel : Nat) :
    ∀ n, n ≤ fuel →
      n < 10 ^ ndigits10F fuel n ∧
      (ndigits10F fuel n = 1 ∨ 10 ^ (ndigits10F fuel n - 1) ≤ n) := by
  induction fuel with
  | zero =>
    intro n hn
    interval_cases n
    simp [ndigits10F]
  | succ m ih =>
    intro n hn
    by_cases h : n < 10
    · simp only [ndigits10F, if_pos h]
      exact ⟨by simpa using h, Or.inl trivial⟩
    · have hdiv : n / 10 ≤ m := by omega
      have ihd := ih (n / 10) hdiv
      have hpos := ndigits10F_pos m (n / 10)
      simp only [ndigits10F, if_neg h]
      set d := ndigits10F m (n / 10) with hd
      constructor
      · have h1 : n / 10 < 10 ^ d := ihd.1
        have h2 : 10 ^ (d + 1 - 1 + 1) = 10 * 10 ^ d := by
          rw [Nat.add_sub_cancel, pow_succ]
          ring
        have h3 : n = 10 * (n / 10) + n % 10 := (Nat.div_add_mod n 10).symm
        have h4 : n % 10 < 10 := Nat.mod_lt n (by omega)
        omega
      · rcases ihd.2 with h1 | h1
        · right
          have : 10 ^ (d + 1 - 1) = 10 ^ d := by rfl
          rw [this, h1]
          omega
        · right
          have h2 : 10 ^ (d - 1 + 1) = 10 * 10 ^ (d - 1) := by
            rw [pow_succ]; ring
          have h3 : d - 1 + 1 = d := by omega
          rw [h3] at h2
          have h4 : 10 * (n / 10) ≤ n := Nat.mul_div_le n 10
          have : 10 ^ (d + 1 - 1) = 10 ^ d := by rfl
          rw [this, h2]
          omega

theorem ceilLog10_spec (m : Nat) (hm : 1 ≤ m) :
    m ≤ 10 ^ ceilLog10 m ∧ ∀ n, m ≤ 10 ^ n → ceilLog10 m ≤ n := by
  by_cases h1 : m ≤ 1
  · have : m = 1 := by omega
    subst this
    simp [ceilLog10]
  · have h2 : 2 ≤ m := by omega
    simp only [ceilLog10, if_neg h1]
    have hs := ndigits10F_spec (m - 1) (m - 1) (le_refl _)
    have hpos := ndigits10F_pos (m - 1) (m - 1)
    simp only [ndigits10] at *
    set d := ndigits10F (m - 1) (m - 1) with hd
    constructor
    · omega
    · intro n hn
      by_contra hlt
      push_neg at hlt
      have hn1 : n ≤ d - 1 := by omega
      have hmono : 10 ^ n ≤ 10 ^ (d - 1) :=
        Nat.pow_le_pow_right (by omega) hn1
      rcases hs.2 with h3 | h3
      · have : n = 0 := by omega
        subst this
        simp at hn
        omega
      · omega

/-! ## Claim theorems: restart rotation and finalize/close lifecycle -/

/-- C3: with template `"chk###"`, `keep = 3`, existing files `chk000`/`chk001`
and source `new`, the rotation renames `chk001` to `"chk  2"`, `chk000` to
`"chk  1"`, and the source to `"chk  0"` — the `"%*d"` conversion pads the
index with SPACES, so none of `chk000`, `chk001`, `chk002` exist afterwards,
contradicting the claimed zero-padded results. -/
theorem restart_rotate_keep3_spacepad_eval :
    restart_rename [("chk000", 10), ("chk001", 11), ("new", 12)] "new" "chk###" 3
      = ([("chk  2", 11), ("chk  1", 10), ("chk  0", 12)],
         esio_status.ESIO_SUCCESS) ∧
    fsLookup (restart_rename [("chk000", 10), ("chk001", 11), ("new", 12)]
        "new" "chk###" 3).1 "chk000" = none ∧
    fsLookup (restart_rename [("chk000", 10), ("chk001", 11), ("new", 12)]
        "new" "chk###" 3).1 "chk001" = none ∧
    fsLookup (restart_rename [("chk000", 10), ("chk001", 11), ("new", 12)]
        "new" "chk###" 3).1 "chk002" = none := by
  decide

/-- C7 counterexample: for `tmpl = "chk#"`, `keep = 1000` the computed field
width is `3` (the claim says `4`: `ceil(log10(999)) = 3`), and the final file
written for the source is `"chk  0"`, not `"chk0000"`. -/
theorem restart_width_widen_cex :
    restart_ndigits 1 1000 = 3 ∧ (3 : Nat) ≠ 4 ∧
    (restart_rename [("new", 7)] "new" "chk#" 1000).2 = esio_status.ESIO_SUCCESS ∧
    fsLookup (restart_rename [("new", 7)] "new" "chk#" 1000).1 "chk0000" = none ∧
    fsLookup (restart_rename [("new", 7)] "new" "chk#" 1000).1 "chk  0" = some 7 := by
  decide

/-- C7 (amended): the width is the `'#'`-run length, widened (for `keep ≥ 2`)
to the exact ceiling of `log10(keep-1)` — `ceilLog10` is characterized as the
least `n` with `keep-1 ≤ 10^n` — and in particular with template `"chk#"` and
`keep = 1000` the width becomes `3` and the source is renamed to `"chk  0"`
(three-wide, space-padded by the `"%*d"` conversion). -/
theorem restart_width_widen_amended :
    (∀ m : Nat, 1 ≤ m →
      m ≤ 10 ^ ceilLog10 m ∧ ∀ n : Nat, m ≤ 10 ^ n → ceilLog10 m ≤ n) ∧
    (∀ (r : Nat) (keep : Int), 2 ≤ keep →
      restart_ndigits r keep = max r (ceilLog10 (keep - 1).toNat)) ∧
    restart_ndigits 1 1000 = 3 ∧
    (restart_rename [("new", 7)] "new" "chk#" 1000
      = ([("chk  0", 7)], esio_status.ESIO_SUCCESS)) := by
  refine ⟨fun m hm => ceilLog10_spec m hm, fun r keep hk => ?_, by decide, by decide⟩
  simp only [restart_ndigits]
  rw [if_neg (by omega)]

/-- C7 witness: the amended theorem applied at `m = 999`, `r = 1`,
`keep = 1000`. -/
theorem restart_width_widen_amended_witness :
    999 ≤ 10 ^ ceilLog10 999 ∧ ceilLog10 999 ≤ 3 ∧
    restart_ndigits 1 1000 = max 1 (ceilLog10 999) :=
  ⟨(restart_width_widen_amended.1 999 (by norm_num)).1,
   (restart_width_widen_amended.1 999 (by norm_num)).2 3 (by norm_num),
   restart_width_widen_amended.2.1 1 1000 (by norm_num)⟩

/-- C6: after a successful close, a second `esio_file_close` on the same
handle reports `ESIO_EINVAL` ("No file currently open") instead of the
success `0` the claim (and the repository's own `file_create_and_open` test)
expects. -/
theorem esio_double_close_einval_eval :
    (esio_file_close ⟨[("p", [])], some 1, [], [], false⟩
        ⟨some "p", 0, some 0, some 0⟩).2.2 = esio_status.ESIO_SUCCESS ∧
    (esio_file_close
        (esio_file_close ⟨[("p", [])], some 1, [], [], false⟩
          ⟨some "p", 0, some 0, some 0⟩).1
        (esio_file_close ⟨[("p", [])], some 1, [], [], false⟩
          ⟨some "p", 0, some 0, some 0⟩).2.1).2.2 = esio_status.ESIO_EINVAL ∧
    esio_status.ESIO_EINVAL ≠ esio_status.ESIO_SUCCESS := by
  decide

/-- C9: `esio_finalize` on a null handle returns success without touching any
state (in particular without invoking the error hook), and on any non-null
handle returns success unconditionally — also when the forced
`esio_file_close` of a still-open container reports a failure. -/
theorem esio_finalize_always_success :
    (∀ w : EsioWorld, esio_finalize w none = (w, esio_status.ESIO_SUCCESS)) ∧
    (∀ (w : EsioWorld) (s : esio_state_s),
      (esio_finalize w (some s)).2 = esio_status.ESIO_SUCCESS) := by
  constructor
  · intro w
    rfl
  · intro w s
    rfl

/-! ## Claim theorems: the non-digit guard of restart_nextindex -/

/-- C10 counterexample: for template `"a##b"` and name `"a#5b"` the character
of the name at the position of the template's FIRST `'#'` (index 1) is `'#'`,
not a decimal digit, yet `restart_nextindex` returns `6`, not `0`: the
forward scan stops at the SECOND `'#'`, where the name holds the digit `5`. -/
theorem restart_nextindex_nondigit_cex :
    firstHashPos "a##b".toList = 1 ∧
    isdigitC (cAt "a#5b".toList 1) = false ∧
    restart_nextindex "a##b".toList "a#5b".toList 0 = 6 ∧ (6 : Int) ≠ 0 := by
  decide

/-- C10 (amended): `restart_nextindex` returns `0` whenever the forward scan
stops at a position where the template holds `'#'` and the name's character
there is not a decimal digit — in particular an index region beginning with a
sign or whitespace is never parsed as a number. -/
theorem restart_nextindex_nondigit_amended (tmpl name : List Char) (e : Int)
    (hlt : scanEq tmpl name < tmpl.length)
    (hhash : cAt tmpl (scanEq tmpl name) = '#')
    (hnd : isdigitC (cAt name (scanEq tmpl name)) = false) :
    restart_nextindex tmpl name e = 0 := by
  unfold restart_nextindex
  rw [if_neg (by omega), if_neg (by simp [hhash]), if_pos (by simp [hnd])]

/-- C10 witness: template `"chk###"`, name `"chk-12"` (leading sign at the
index region). -/
theorem restart_nextindex_nondigit_amended_witness :
    scanEq "chk###".toList "chk-12".toList < "chk###".toList.length ∧
    cAt "chk###".toList (scanEq "chk###".toList "chk-12".toList) = '#' ∧
    isdigitC (cAt "chk-12".toList (scanEq "chk###".toList "chk-12".toList)) = false ∧
    restart_nextindex "chk###".toList "chk-12".toList 7 = 0 :=
  ⟨by decide, by decide, by decide,
   restart_nextindex_nondigit_amended "chk###".toList "chk-12".toList 7
     (by decide) (by decide) (by decide)⟩

/-! ## Claim theorems: the silenced metadata probe -/

/-- C8: `esio_field_metadata_read` restores the saved HDF5 error handler on
every exit path and never lets the HDF5 error sink fire (the read runs with
the sink silenced, so the handler-invocation log is unchanged); and when the
read overwrites the sentinel placed one slot past the expected 8-integer
tuple, the probe reports the fatal `ESIO_ESANITY` to the ESIO error hook. -/
theorem esio_metadata_probe_silent (w : EsioWorld) (f : H5File) (name : String) :
    (esio_field_metadata_read w f name).1.h5_handler = w.h5_handler ∧
    (esio_field_metadata_read w f name).1.h5_log = w.h5_log ∧
    (metadataOverflowB f name = true →
      (esio_field_metadata_read w f name).1.esio_log
        = w.esio_log ++ [esio_status.ESIO_ESANITY]) := by
  unfold esio_field_metadata_read metadataOverflowB
  cases hl : lookupA f name with
  | none => simp [hl, h5_raise]
  | some ds =>
    cases hm : ds.meta with
    | none => simp [hl, hm, h5_raise]
    | some l =>
      simp only [hl, hm]
      by_cases h8 : (if 8 < l.length then l.getD 8 0 else metadataSentinel)
          ≠ metadataSentinel
      · rw [if_pos h8]
        refine ⟨rfl, rfl, fun _ => rfl⟩
      · rw [if_neg h8]
        have hov : ¬ ((decide (8 < l.length) &&
            decide (l.getD 8 0 ≠ metadataSentinel)) = true) := by
          intro hc
          rw [Bool.and_eq_true, decide_eq_true_eq, decide_eq_true_eq] at hc
          push_neg at h8
          rw [if_pos hc.1] at h8
          exact hc.2 h8
        split
        · exact ⟨rfl, rfl, fun hc => absurd hc hov⟩
        · exact ⟨rfl, rfl, fun hc => absurd hc hov⟩

/-! ## Association-list and metadata-probe evaluation lemmas -/

theorem lookupA_updateA_self {α : Type} (l : List (String × α)) (k : String) (v : α) :
    lookupA (updateA l k v) k = some v := by
  induction l with
  | nil => simp [updateA, lookupA]
  | cons kv rest ih =>
    by_cases h : kv.1 = k
    · simp [updateA, h, lookupA]
    · simpa [updateA, h, lookupA] using ih

theorem lookupA_append_fresh {α : Type} (l : List (String × α)) (k : String) (v : α)
    (h : lookupA l k = none) : lookupA (l ++ [(k, v)]) k = some v := by
  induction l with
  | nil => simp [lookupA]
  | cons kv rest ih =>
    obtain ⟨k0, v0⟩ := kv
    by_cases hk : k0 = k
    · simp [lookupA, hk] at h
    · rw [List.cons_append]
      rw [lookupA, if_neg hk] at h
      rw [lookupA, if_neg hk]
      exact ih h

theorem metadata_read_absent (w : EsioWorld) (f : H5File) (name : String)
    (hds : (match lookupA f name with
            | some ds => ds.meta
            | none => none) = (none : Option (List Int))) :
    esio_field_metadata_read w f name = (w, false, (0, 0, 0, 0, 0)) := by
  unfold esio_field_metadata_read
  simp only [hds, h5_raise]

theorem metadata_read_present8 (w : EsioWorld) (f : H5File) (name : String)
    (ds : H5Dataset) (v0 v1 v2 tg a b c d : Int)
    (hl : lookupA f name = some ds)
    (hm : ds.meta = some [v0, v1, v2, tg, a, b, c, d])
    (htg0 : 0 ≤ tg) (htg1 : tg < 1) :
    esio_field_metadata_read w f name = (w, true, (tg, a, b, c, d)) := by
  unfold esio_field_metadata_read
  simp only [hl, hm]
  rw [if_neg (by norm_num), if_neg (by simp [esio_nlayout]; omega)]
  simp [List.getD]

/-! ## Claim theorems: metadata idempotence of field writes -/

theorem layoutGet_zero :
    layoutGet 0 = some { tag := 0,
                         filespace_creator := esio_layout0_filespace_creator,
                         field_writer := esio_layout0_writer9,
                         field_reader := esio_layout0_reader9 } := rfl

/-- C5: a `field_write` against an existing field whose stored metadata
matches the caller's `(C,B,A)` extents and component count succeeds without
rewriting the metadata attribute; any mismatch fails with `ESIO_EINVAL`
before a dataset is opened or any I/O is started, leaving the containers
(and hence the stored dataset and its metadata) unchanged. -/
theorem esio_metadata_idempotence
    (w : EsioWorld) (s : esio_state_s) (path name : String) (f : H5File)
    (ds : H5Dataset) (buf : Int → Int) (v0 v1 v2 fnc fnb fna fcmp : Int)
    (nc cst csz nb bst bsz na ast asz : Int) (t : H5T)
    (hfid : s.file_id = some path)
    (hfs : lookupA w.fs path = some f)
    (hds : lookupA f name = some ds)
    (hmeta : ds.meta = some [v0, v1, v2, 0, fnc, fnb, fna, fcmp])
    (hvalid : esio_validate_decomp nc cst csz nb bst bsz na ast asz) :
    ((nc = fnc ∧ nb = fnb ∧ na = fna ∧ esio_type_ncomponents t = fcmp) →
      (esio_field_write_internal w s name buf nc cst csz nb bst bsz na ast asz t).2.2
        = esio_status.ESIO_SUCCESS ∧
      Option.map H5Dataset.meta
        (lookupA ((lookupA
          (esio_field_write_internal w s name buf nc cst csz nb bst bsz na ast asz t).1.fs
          path).getD []) name)
        = some (some [v0, v1, v2, 0, fnc, fnb, fna, fcmp])) ∧
    (¬ (nc = fnc ∧ nb = fnb ∧ na = fna ∧ esio_type_ncomponents t = fcmp) →
      (esio_field_write_internal w s name buf nc cst csz nb bst bsz na ast asz t).2.2
        = esio_status.ESIO_EINVAL ∧
      (esio_field_write_internal w s name buf nc cst csz nb bst bsz na ast asz t).1.fs
        = w.fs) := by
  have hmr := metadata_read_present8 w f name ds v0 v1 v2 0 fnc fnb fna fcmp hds hmeta
    (by norm_num) (by norm_num)
  unfold esio_field_write_internal
  rw [hfid]
  simp only [hfs, Option.getD_some]
  rw [if_neg (by exact fun hno => hno hvalid)]
  simp only [hmr, if_true]
  constructor
  · rintro ⟨h1, h2, h3, h4⟩
    rw [if_neg (by simpa using h1), if_neg (by simpa using h2),
        if_neg (by simpa using h3), if_neg (by simpa using h4)]
    simp only [hds]
    rw [if_neg (by simp [H5Tfind_exists])]
    rw [layoutGet_zero]
    dsimp only
    refine ⟨rfl, ?_⟩
    rw [lookupA_updateA_self]
    simp only [Option.getD_some]
    rw [lookupA_updateA_self]
    simp [esio_layout0_writer9, esio_layout0_field_writer, hmeta]
  · intro hmm
    by_cases h1 : nc = fnc
    · by_cases h2 : nb = fnb
      · by_cases h3 : na = fna
        · by_cases h4 : esio_type_ncomponents t = fcmp
          · exact absurd ⟨h1, h2, h3, h4⟩ hmm
          · rw [if_neg (by simpa using h1), if_neg (by simpa using h2),
                if_neg (by simpa using h3), if_pos (by simpa using h4)]
            exact ⟨rfl, rfl⟩
        · rw [if_neg (by simpa using h1), if_neg (by simpa using h2),
              if_pos (by simpa using h3)]
          exact ⟨rfl, rfl⟩
      · rw [if_neg (by simpa using h1), if_pos (by simpa using h2)]
        exact ⟨rfl, rfl⟩
    · rw [if_pos (by simpa using h1)]
      exact ⟨rfl, rfl⟩

/-- C5 witness: a second write with identical extents and component count on
a concrete one-cell field succeeds. -/
theorem esio_metadata_idempotence_witness :
    (esio_field_write_internal
      ⟨[("p", [("u", ⟨H5T.native_int, (1, 1, 1), some [0, 0, 1, 0, 1, 1, 1, 1],
         fun _ _ _ => 0⟩)])], some 1, [], [], false⟩
      ⟨some "p", 0, some 0, some 0⟩ "u" (fun _ => 42) 1 0 1 1 0 1 1 0 1
      H5T.native_int).2.2 = esio_status.ESIO_SUCCESS :=
  ((esio_metadata_idempotence
      ⟨[("p", [("u", ⟨H5T.native_int, (1, 1, 1), some [0, 0, 1, 0, 1, 1, 1, 1],
         fun _ _ _ => 0⟩)])], some 1, [], [], false⟩
      ⟨some "p", 0, some 0, some 0⟩ "p" "u"
      [("u", ⟨H5T.native_int, (1, 1, 1), some [0, 0, 1, 0, 1, 1, 1, 1],
         fun _ _ _ => 0⟩)]
      ⟨H5T.native_int, (1, 1, 1), some [0, 0, 1, 0, 1, 1, 1, 1], fun _ _ _ => 0⟩
      (fun _ => 42) 0 0 1 1 1 1 1 1 0 1 1 0 1 1 0 1 H5T.native_int
      rfl rfl rfl rfl (by decide)).1 ⟨rfl, rfl, rfl, rfl⟩).1

/-! ## Claim theorems: dispatch by the stored layout tag -/

/-- C2: on a transfer against an already-existing field the registry dispatch
is governed by the layout tag stored in the field's metadata, not by the
handle's active tag: (a) `esio_field_read_internal` is entirely independent
of the handle's `layout_tag` — flipping the active tag between a write and a
later read leaves the read result (world, buffer, and status) unchanged —
and (b) `esio_field_write_internal` on an existing field produces the same
world and status for any two active tags. -/
theorem esio_layout_dispatch_stored :
    (∀ (w : EsioWorld) (s : esio_state_s) (name : String) (buf : Int → Int)
        (nc cst csz nb bst bsz na ast asz : Int) (t : H5T) (t1 t2 : Int),
      esio_field_read_internal w { s with layout_tag := t1 } name buf
          nc cst csz nb bst bsz na ast asz t
        = esio_field_read_internal w { s with layout_tag := t2 } name buf
          nc cst csz nb bst bsz na ast asz t) ∧
    (∀ (w : EsioWorld) (s : esio_state_s) (path name : String) (f : H5File)
        (ds : H5Dataset) (buf : Int → Int) (v0 v1 v2 fnc fnb fna fcmp : Int)
        (nc cst csz nb bst bsz na ast asz : Int) (t : H5T) (t1 t2 : Int),
      s.file_id = some path →
      lookupA w.fs path = some f →
      lookupA f name = some ds →
      ds.meta = some [v0, v1, v2, 0, fnc, fnb, fna, fcmp] →
      ((esio_field_write_internal w { s with layout_tag := t1 } name buf
          nc cst csz nb bst bsz na ast asz t).1,
       (esio_field_write_internal w { s with layout_tag := t1 } name buf
          nc cst csz nb bst bsz na ast asz t).2.2)
        = ((esio_field_write_internal w { s with layout_tag := t2 } name buf
            nc cst csz nb bst bsz na ast asz t).1,
           (esio_field_write_internal w { s with layout_tag := t2 } name buf
            nc cst csz nb bst bsz na ast asz t).2.2)) := by
  constructor
  · intro w s name buf nc cst csz nb bst bsz na ast asz t t1 t2
    rfl
  · intro w s path name f ds buf v0 v1 v2 fnc fnb fna fcmp
      nc cst csz nb bst bsz na ast asz t t1 t2 hfid hfs hds hmeta
    have hmr := metadata_read_present8 w f name ds v0 v1 v2 0 fnc fnb fna fcmp
      hds hmeta (by norm_num) (by norm_num)
    unfold esio_field_write_internal
    dsimp only
    rw [hfid]
    by_cases hv : esio_validate_decomp nc cst csz nb bst bsz na ast asz
    · by_cases h1 : nc = fnc <;> by_cases h2 : nb = fnb <;>
        by_cases h3 : na = fna <;> by_cases h4 : esio_type_ncomponents t = fcmp <;>
        simp [hfs, hmr, hv, h1, h2, h3, h4, hds, H5Tfind_exists, layoutGet_zero] <;>
        exact ⟨by split <;> rfl, by split <;> rfl⟩
    · simp [hv]

/-- C2 witness: flipping the active tag from `5` to `9` around a write on a
concrete existing field leaves the observable result unchanged. -/
theorem esio_layout_dispatch_stored_witness :
    ((esio_field_write_internal
        ⟨[("p", [("u", ⟨H5T.native_int, (1, 1, 1), some [0, 0, 1, 0, 1, 1, 1, 1],
           fun _ _ _ => 0⟩)])], some 1, [], [], false⟩
        ⟨some "p", 5, some 0, some 0⟩ "u" (fun _ => 42) 1 0 1 1 0 1 1 0 1
        H5T.native_int).1,
     (esio_field_write_internal
        ⟨[("p", [("u", ⟨H5T.native_int, (1, 1, 1), some [0, 0, 1, 0, 1, 1, 1, 1],
           fun _ _ _ => 0⟩)])], some 1, [], [], false⟩
        ⟨some "p", 5, some 0, some 0⟩ "u" (fun _ => 42) 1 0 1 1 0 1 1 0 1
        H5T.native_int).2.2)
      = ((esio_field_write_internal
          ⟨[("p", [("u", ⟨H5T.native_int, (1, 1, 1), some [0, 0, 1, 0, 1, 1, 1, 1],
             fun _ _ _ => 0⟩)])], some 1, [], [], false⟩
          ⟨some "p", 9, some 0, some 0⟩ "u" (fun _ => 42) 1 0 1 1 0 1 1 0 1
          H5T.native_int).1,
         (esio_field_write_internal
          ⟨[("p", [("u", ⟨H5T.native_int, (1, 1, 1), some [0, 0, 1, 0, 1, 1, 1, 1],
             fun _ _ _ => 0⟩)])], some 1, [], [], false⟩
          ⟨some "p", 9, some 0, some 0⟩ "u" (fun _ => 42) 1 0 1 1 0 1 1 0 1
          H5T.native_int).2.2) :=
  esio_layout_dispatch_stored.2
    ⟨[("p", [("u", ⟨H5T.native_int, (1, 1, 1), some [0, 0, 1, 0, 1, 1, 1, 1],
       fun _ _ _ => 0⟩)])], some 1, [], [], false⟩
    ⟨some "p", 5, some 0, some 0⟩ "p" "u"
    [("u", ⟨H5T.native_int, (1, 1, 1), some [0, 0, 1, 0, 1, 1, 1, 1],
       fun _ _ _ => 0⟩)]
    ⟨H5T.native_int, (1, 1, 1), some [0, 0, 1, 0, 1, 1, 1, 1], fun _ _ _ => 0⟩
    (fun _ => 42) 0 0 1 1 1 1 1 1 0 1 1 0 1 1 0 1 H5T.native_int 5 9
    rfl rfl rfl rfl

/-! ## The layout-0 point round trip -/

theorem slabTriples_mem (cl bl al k j i : Int) :
    (k, j, i) ∈ slabTriples cl bl al ↔
      (0 ≤ k ∧ k < cl ∧ 0 ≤ j ∧ j < bl ∧ 0 ≤ i ∧ i < al) := by
  simp [slabTriples]
  constructor
  · rintro ⟨mk, hmk, mj, hmj, mi, ⟨ma, hma, hmi⟩, e1, e2, e3⟩
    subst hmi; subst e1; subst e2; subst e3
    omega
  · rintro ⟨h1, h2, h3, h4, h5, h6⟩
    exact ⟨k.toNat, by omega, j.toNat, by omega, i,
      ⟨i.toNat, by omega, by omega⟩, by omega, by omega, rfl⟩

/-- One point of the layout-0 write-then-read round trip at the engine's
tight strides: reading back immediately after writing returns the written
buffer value at every in-box offset `k*(bsz*asz) + j*asz + i`. -/
theorem layout0_roundtrip_point (ds : H5Dataset) (buf buf0 : Int → Int)
    (nc cst csz nb bst bsz na ast asz : Int) (t t2 : H5T) (k j i : Int)
    (hk1 : 0 ≤ k) (hk2 : k < csz) (hj1 : 0 ≤ j) (hj2 : j < bsz)
    (hi1 : 0 ≤ i) (hi2 : i < asz) :
    esio_layout0_reader9 (esio_layout0_writer9 ds buf nc cst csz nb bst bsz na ast asz t)
        buf0 nc cst csz nb bst bsz na ast asz t2 (k * (bsz * asz) + j * asz + i)
      = buf (k * (bsz * asz) + j * asz + i) := by
  simp only [esio_layout0_reader9, esio_layout0_field_reader]
  have hmem : (k, j, i) ∈ slabTriples csz bsz asz :=
    (slabTriples_mem csz bsz asz k j i).2 ⟨hk1, hk2, hj1, hj2, hi1, hi2⟩
  have hpred : (fun kji : Int × Int × Int =>
      decide (kji.1 * (bsz * asz) + kji.2.1 * asz + kji.2.2 * 1
        = k * (bsz * asz) + j * asz + i)) (k, j, i) = true := by
    simp
  rcases hfind : (slabTriples csz bsz asz).find? (fun kji =>
      decide (kji.1 * (bsz * asz) + kji.2.1 * asz + kji.2.2 * 1
        = k * (bsz * asz) + j * asz + i)) with _ | x
  · exfalso
    have := List.find?_eq_none.mp hfind (k, j, i) hmem
    exact this hpred
  · obtain ⟨k2, j2, i2⟩ := x
    have hp := List.find?_some hfind
    have hm := List.mem_of_find?_eq_some hfind
    rw [slabTriples_mem] at hm
    simp only [decide_eq_true_eq] at hp
    rw [hfind]
    dsimp only
    simp only [esio_layout0_writer9, esio_layout0_field_writer]
    rw [if_pos (by omega)]
    have heq2 : (cst + k2 - cst) * (bsz * asz) + (bst + j2 - bst) * asz
        + (ast + i2 - ast) * 1 = k * (bsz * asz) + j * asz + i := by
      have h2 : cst + k2 - cst = k2 := by ring
      have h3 : bst + j2 - bst = j2 := by ring
      have h4 : ast + i2 - ast = i2 := by ring
      rw [h2, h3, h4]
      linarith [hp]
    rw [heq2]

/-- Evaluation of `esio_field_write_internal` on a fresh field name:
the dataset is created with the active layout 0, the metadata attribute is
attached, and the layout-0 writer is dispatched.  -/
theorem write_internal_fresh_eval
    (w : EsioWorld) (s : esio_state_s) (path name : String) (f : H5File)
    (buf : Int → Int) (nc cst csz nb bst bsz na ast asz : Int) (t : H5T)
    (hfid : s.file_id = some path)
    (htag : s.layout_tag = 0)
    (hfs : lookupA w.fs path = some f)
    (hfresh : lookupA f name = none)
    (hvalid : esio_validate_decomp nc cst csz nb bst bsz na ast asz) :
    esio_field_write_internal w s name buf nc cst csz nb bst bsz na ast asz t
      = ({ w with
             fs := updateA w.fs path
               (updateA
                 (updateA
                   (f ++ [(name, { dtype := t, space := (nc, nb, na), meta := none,
                                   data := fun _ _ _ => 0 })])
                   name
                   { dtype := t, space := (nc, nb, na),
                     meta := some [0, 0, 1, 0, nc, nb, na, esio_type_ncomponents t],
                     data := fun _ _ _ => 0 })
                 name
                 (esio_layout0_writer9
                   { dtype := t, space := (nc, nb, na),
                     meta := some [0, 0, 1, 0, nc, nb, na, esio_type_ncomponents t],
                     data := fun _ _ _ => 0 }
                   buf nc cst csz nb bst bsz na ast asz t)) },
         s, esio_status.ESIO_SUCCESS) := by
  have hmr := metadata_read_absent w f name (by simp [hfresh])
  unfold esio_field_write_internal
  rw [hfid]
  simp only [hfs, Option.getD_some, hmr]
  rw [if_neg (fun hno => hno hvalid)]
  rw [if_neg (by simp)]
  unfold esio_field_create esio_field_metadata_write
  rw [htag, layoutGet_zero]
  dsimp only
  rw [if_neg (fun h => h rfl)]
  simp only [hfresh]
  simp only [esio_layout0_filespace_creator, esio_major_version,
    esio_minor_version, esio_point_version]
  have hap := lookupA_append_fresh f name
    ({ dtype := t, space := (nc, nb, na), meta := none,
       data := fun _ _ _ => 0 } : H5Dataset) hfresh
  rw [hap]
  dsimp only
  rw [lookupA_updateA_self]

/-- Evaluation of `esio_field_read_internal` when the stored metadata
matches the caller's extents and component count: the layout-0 reader stored
in the metadata (tag 0) is dispatched and the world is untouched. -/
theorem read_internal_eval
    (w : EsioWorld) (s : esio_state_s) (path name : String) (f : H5File)
    (ds : H5Dataset) (buf0 : Int → Int) (v0 v1 v2 : Int)
    (nc cst csz nb bst bsz na ast asz : Int) (t : H5T)
    (hfid : s.file_id = some path)
    (hfs : lookupA w.fs path = some f)
    (hds : lookupA f name = some ds)
    (hmeta : ds.meta = some [v0, v1, v2, 0, nc, nb, na, esio_type_ncomponents t])
    (hvalid : esio_validate_decomp nc cst csz nb bst bsz na ast asz) :
    esio_field_read_internal w s name buf0 nc cst csz nb bst bsz na ast asz t
      = (w, esio_layout0_reader9 ds buf0 nc cst csz nb bst bsz na ast asz t,
         esio_status.ESIO_SUCCESS) := by
  have hmr := metadata_read_present8 w f name ds v0 v1 v2 0 nc nb na
    (esio_type_ncomponents t) hds hmeta (by norm_num) (by norm_num)
  unfold esio_field_read_internal
  rw [hfid]
  simp only [hfs, Option.getD_some, hmr]
  rw [if_neg (fun hno => hno hvalid)]
  rw [if_neg (by simp), if_neg (fun h => h rfl), if_neg (fun h => h rfl),
      if_neg (fun h => h rfl), if_neg (fun h => h rfl)]
  simp only [hds]
  rw [if_neg (by simp [H5Tfind_exists])]
  rw [layoutGet_zero]

/-- Post-condition of a fresh-field write: success, an unchanged handle,
and a stored dataset that is the layout-0 writer's image of the caller's
buffer with the freshly attached 8-integer metadata tuple. -/
theorem write_internal_fresh_spec
    (w : EsioWorld) (s : esio_state_s) (path name : String) (f : H5File)
    (buf : Int → Int) (nc cst csz nb bst bsz na ast asz : Int) (t : H5T)
    (hfid : s.file_id = some path)
    (htag : s.layout_tag = 0)
    (hfs : lookupA w.fs path = some f)
    (hfresh : lookupA f name = none)
    (hvalid : esio_validate_decomp nc cst csz nb bst bsz na ast asz) :
    ∃ (W1 : EsioWorld) (F : H5File) (D0 DS : H5Dataset),
      esio_field_write_internal w s name buf nc cst csz nb bst bsz na ast asz t
        = (W1, s, esio_status.ESIO_SUCCESS) ∧
      W1.h5_close_fails = w.h5_close_fails ∧
      lookupA W1.fs path = some F ∧
      lookupA F name = some DS ∧
      DS = esio_layout0_writer9 D0 buf nc cst csz nb bst bsz na ast asz t ∧
      D0.meta = some [0, 0, 1, 0, nc, nb, na, esio_type_ncomponents t] := by
  refine ⟨_, _, _, _,
    write_internal_fresh_eval w s path name f buf nc cst csz nb bst bsz na ast asz t
      hfid htag hfs hfresh hvalid, rfl, lookupA_updateA_self _ _ _,
    lookupA_updateA_self _ _ _, rfl, rfl⟩

/-- C1 (round-trip, 3-D): writing a fresh field, closing the file, reopening
it, and reading the field back with the same name, decomposition, and element
type succeeds at every step and yields a buffer element-wise equal to the one
written at every offset of the local sub-block.  (With the same element type
on both sides the substrate performs the identity conversion, value-preserving
in this model.)  The decomposition-validity bounds `cst+csz ≤ nc` (etc.) scope
the statement to decompositions valid under the stored global extents. -/
theorem esio_roundtrip_3d
    (w : EsioWorld) (s : esio_state_s) (path name : String) (f : H5File)
    (buf buf0 : Int → Int) (nc cst csz nb bst bsz na ast asz : Int) (t : H5T)
    (hfid : s.file_id = some path)
    (htag : s.layout_tag = 0)
    (hfs : lookupA w.fs path = some f)
    (hfresh : lookupA f name = none)
    (hclose : w.h5_close_fails = false)
    (hvalid : esio_validate_decomp nc cst csz nb bst bsz na ast asz)
    (_hbc : cst + csz ≤ nc) (_hbb : bst + bsz ≤ nb) (_hba : ast + asz ≤ na) :
    (esio_roundtrip w s path name buf buf0 nc cst csz nb bst bsz na ast asz t).2
      = (esio_status.ESIO_SUCCESS, esio_status.ESIO_SUCCESS,
         esio_status.ESIO_SUCCESS, esio_status.ESIO_SUCCESS) ∧
    (∀ k j i : Int, 0 ≤ k → k < csz → 0 ≤ j → j < bsz → 0 ≤ i → i < asz →
      (esio_roundtrip w s path name buf buf0 nc cst csz nb bst bsz na ast asz t).1
          (k * (bsz * asz) + j * asz + i)
        = buf (k * (bsz * asz) + j * asz + i)) := by
  obtain ⟨W1, F, D0, DS, hw1, hcf, h1, h2, hDS, hD0meta⟩ :=
    write_internal_fresh_spec w s path name f buf nc cst csz nb bst bsz na ast asz t
      hfid htag hfs hfresh hvalid
  have hDSmeta : DS.meta = some [0, 0, 1, 0, nc, nb, na, esio_type_ncomponents t] := by
    rw [hDS]
    simpa [esio_layout0_writer9, esio_layout0_field_writer] using hD0meta
  have hc : esio_file_close W1 s = (W1, { s with file_id := none },
      esio_status.ESIO_SUCCESS) := by
    unfold esio_file_close
    rw [hfid]
    rw [if_neg (by rw [hcf, hclose]; exact Bool.false_ne_true)]
  have ho : esio_file_open W1 { s with file_id := none } path false
      = (W1, { s with file_id := some path }, esio_status.ESIO_SUCCESS) := by
    unfold esio_file_open
    dsimp only
    rw [h1]
  have hr := read_internal_eval W1 { s with file_id := some path } path name F DS
    buf0 0 0 1 nc cst csz nb bst bsz na ast asz t rfl h1 h2 hDSmeta hvalid
  unfold esio_roundtrip
  rw [hw1]
  dsimp only
  rw [hc]
  dsimp only
  rw [ho]
  dsimp only
  rw [hr]
  refine ⟨rfl, fun k j i hk1 hk2 hj1 hj2 hi1 hi2 => ?_⟩
  dsimp only
  rw [hDS]
  exact layout0_roundtrip_point D0 buf buf0 nc cst csz nb bst bsz na ast asz t t k j i
    hk1 hk2 hj1 hj2 hi1 hi2

/-- C1 witness: a concrete one-rank round trip (`nc = 2, nb = 1, na = 2`)
returns the written values. -/
theorem esio_roundtrip_3d_witness :
    (esio_roundtrip ⟨[("p", [])], some 1, [], [], false⟩
        ⟨some "p", 0, some 0, some 0⟩ "p" "u" (fun off => off + 5) (fun _ => 0)
        2 0 2 1 0 1 2 0 2 H5T.native_double).2
      = (esio_status.ESIO_SUCCESS, esio_status.ESIO_SUCCESS,
         esio_status.ESIO_SUCCESS, esio_status.ESIO_SUCCESS) ∧
    (esio_roundtrip ⟨[("p", [])], some 1, [], [], false⟩
        ⟨some "p", 0, some 0, some 0⟩ "p" "u" (fun off => off + 5) (fun _ => 0)
        2 0 2 1 0 1 2 0 2 H5T.native_double).1 (1 * (1 * 2) + 0 * 2 + 1)
      = (fun off => off + 5) (1 * (1 * 2) + 0 * 2 + 1) := by
  have h := esio_roundtrip_3d ⟨[("p", [])], some 1, [], [], false⟩
    ⟨some "p", 0, some 0, some 0⟩ "p" "u" [] (fun off => off + 5) (fun _ => 0)
    2 0 2 1 0 1 2 0 2 H5T.native_double rfl rfl rfl rfl rfl (by decide)
    (by decide) (by decide) (by decide)
  exact ⟨h.1, h.2 1 0 1 (by decide) (by decide) (by decide) (by decide)
    (by decide) (by decide)⟩

/-- C8 witness: probing an attribute with nine stored integers (the ninth not
equal to the sentinel) leaves the handler and HDF5 log untouched and reports
exactly one `ESIO_ESANITY` to the ESIO hook. -/
theorem esio_metadata_probe_silent_witness :
    metadataOverflowB
        [("u", ⟨H5T.native_int, (1, 1, 1), some [0, 0, 1, 0, 1, 1, 1, 1, 99],
          fun _ _ _ => 0⟩)] "u" = true ∧
    (esio_field_metadata_read ⟨[], some 3, [], [], false⟩
        [("u", ⟨H5T.native_int, (1, 1, 1), some [0, 0, 1, 0, 1, 1, 1, 1, 99],
          fun _ _ _ => 0⟩)] "u").1.h5_handler = some 3 ∧
    (esio_field_metadata_read ⟨[], some 3, [], [], false⟩
        [("u", ⟨H5T.native_int, (1, 1, 1), some [0, 0, 1, 0, 1, 1, 1, 1, 99],
          fun _ _ _ => 0⟩)] "u").1.h5_log = ([] : List Int) ∧
    (esio_field_metadata_read ⟨[], some 3, [], [], false⟩
        [("u", ⟨H5T.native_int, (1, 1, 1), some [0, 0, 1, 0, 1, 1, 1, 1, 99],
          fun _ _ _ => 0⟩)] "u").1.esio_log = [esio_status.ESIO_ESANITY] := by
  have h := esio_metadata_probe_silent ⟨[], some 3, [], [], false⟩
    [("u", ⟨H5T.native_int, (1, 1, 1), some [0, 0, 1, 0, 1, 1, 1, 1, 99],
      fun _ _ _ => 0⟩)] "u"
  have hov : metadataOverflowB
      [("u", ⟨H5T.native_int, (1, 1, 1), some [0, 0, 1, 0, 1, 1, 1, 1, 99],
        fun _ _ _ => 0⟩)] "u" = true := by
    rfl
  exact ⟨hov, h.1, h.2.1, (h.2.2 hov).trans (List.nil_append _)⟩

/-! ## Character-indexing and scan lemmas for restart_nextindex -/

theorem cAt_append_lt (a b : List Char) (m : Nat) (h : m < a.length) :
    cAt (a ++ b) m = cAt a m := by
  unfold cAt
  exact List.getD_append a b _ m h

theorem cAt_append_ge (a b : List Char) (m : Nat) (h : a.length ≤ m) :
    cAt (a ++ b) m = cAt b (m - a.length) := by
  unfold cAt
  exact List.getD_append_right a b _ m h

theorem cAt_replicate (n : Nat) (c : Char) (m : Nat) (h : m < n) :
    cAt (List.replicate n c) m = c := by
  unfold cAt
  rw [List.getD_eq_getElem?_getD, List.getElem?_replicate, if_pos h]
  rfl

theorem cAt_ge_len (l : List Char) (m : Nat) (h : l.length ≤ m) :
    cAt l m = Char.ofNat 0 := by
  unfold cAt
  exact List.getD_eq_default l _ h

theorem cAt_drop (l : List Char) (k v : Nat) :
    cAt (l.drop k) v = cAt l (k + v) := by
  unfold cAt
  rw [List.getD_eq_getElem?_getD, List.getD_eq_getElem?_getD, List.getElem?_drop]

theorem scanEq_append (p : List Char) (x y : List Char) :
    scanEq (p ++ x) (p ++ y) = p.length + scanEq x y := by
  induction p with
  | nil => simp
  | cons c cs ih =>
    simp [List.cons_append, scanEq, ih]
    omega

theorem scanEq_cons_ne (a b : Char) (x y : List Char) (h : a ≠ b) :
    scanEq (a :: x) (b :: y) = 0 := by
  simp [scanEq, h]

theorem scanEq_spec (t : List Char) :
    ∀ n : List Char,
      scanEq t n ≤ t.length ∧ scanEq t n ≤ n.length ∧
      (∀ m, m < scanEq t n → cAt t m = cAt n m) ∧
      (scanEq t n = t.length ∨ scanEq t n = n.length ∨
        cAt t (scanEq t n) ≠ cAt n (scanEq t n)) := by
  induction t with
  | nil =>
    intro n
    refine ⟨by simp [scanEq], by simp [scanEq], ?_, Or.inl (by cases n <;> rfl)⟩
    intro m hm
    cases n <;> simp [scanEq] at hm
  | cons a ts ih =>
    intro n
    cases n with
    | nil =>
      refine ⟨by simp [scanEq], by simp [scanEq], ?_, Or.inr (Or.inl (by rfl))⟩
      intro m hm
      simp [scanEq] at hm
    | cons b ns =>
      by_cases hab : a = b
      · subst hab
        obtain ⟨ha1, ha2, ha3, ha4⟩ := ih ns
        have hsc : scanEq (a :: ts) (a :: ns) = scanEq ts ns + 1 := by
          simp [scanEq]
        rw [hsc]
        refine ⟨by simp; omega, by simp; omega, ?_, ?_⟩
        · intro m hm
          cases m with
          | zero => rfl
          | succ m2 =>
            have := ha3 m2 (by omega)
            simpa [cAt, List.getD] using this
        · rcases ha4 with h1 | h1 | h1
          · exact Or.inl (by simp [h1])
          · exact Or.inr (Or.inl (by simp [h1]))
          · refine Or.inr (Or.inr ?_)
            simpa [cAt, List.getD] using h1
      · refine ⟨by simp [scanEq, hab], by simp [scanEq, hab], ?_, ?_⟩
        · intro m hm
          simp [scanEq, hab] at hm
        · refine Or.inr (Or.inr ?_)
          simp [scanEq, hab, cAt, List.getD]

theorem lastHashGo_append (xs ys : List Char) (k j : Nat) :
    lastHashGo (xs ++ ys) k j = lastHashGo ys (k + xs.length) (lastHashGo xs k j) := by
  induction xs generalizing k j with
  | nil => simp [lastHashGo]
  | cons c cs ih =>
    simp only [List.cons_append, lastHashGo, List.length_cons, List.append_eq]
    rw [ih]
    have hk : k + 1 + cs.length = k + (cs.length + 1) := by omega
    rw [hk]

theorem lastHashGo_hashFree (ys : List Char) (k j : Nat)
    (h : ∀ c ∈ ys, c ≠ '#') :
    lastHashGo ys k j = j := by
  induction ys generalizing k j with
  | nil => rfl
  | cons c cs ih =>
    simp only [lastHashGo]
    rw [if_neg (h c (by simp)), ih]
    intro c2 hc2
    exact h c2 (by simp [hc2])

theorem lastHashGo_replicate_hash (m k j : Nat) :
    lastHashGo (List.replicate m '#') k j = if m = 0 then j else k + m - 1 := by
  induction m generalizing k j with
  | zero => rfl
  | succ m2 ih =>
    simp only [List.replicate_succ, lastHashGo, if_pos rfl, ih]
    by_cases hm : m2 = 0
    · simp [hm]
    · rw [if_neg hm, if_neg (by omega)]
      omega

theorem drop_append_len (A B : List Char) (n : Nat) (h : A.length = n) :
    (A ++ B).drop n = B := by
  subst h
  exact List.drop_left A B

theorem lastHashFrom_run (P S : List Char) (r i : Nat)
    (hS : ∀ c ∈ S, c ≠ '#') (_hr : 1 ≤ r)
    (hiP : P.length ≤ i) (hir : i < P.length + r) :
    lastHashFrom (P ++ List.replicate r '#' ++ S) i = P.length + r - 1 := by
  unfold lastHashFrom
  have hm : (i + 1 - P.length) + (P.length + r - (i + 1)) = r := by omega
  have hsplit : P ++ List.replicate r '#' ++ S
      = (P ++ List.replicate (i + 1 - P.length) '#')
        ++ (List.replicate (P.length + r - (i + 1)) '#' ++ S) := by
    rw [List.append_assoc, List.append_assoc, ← List.append_assoc
      (List.replicate (i + 1 - P.length) '#')]
    rw [← List.replicate_add, hm]
  have hlen : (P ++ List.replicate (i + 1 - P.length) '#').length = i + 1 := by
    simp
    omega
  rw [hsplit, drop_append_len _ _ _ hlen]
  rw [lastHashGo_append, lastHashGo_replicate_hash, lastHashGo_hashFree _ _ _ hS]
  by_cases h0 : P.length + r - (i + 1) = 0
  · rw [if_pos h0]
    omega
  · rw [if_neg h0]
    omega

theorem backScan_stop (t n : List Char) (j i l : Nat) :
    backScan t n j i j l = (j, l) := by
  cases j with
  | zero => rfl
  | succ j2 =>
    simp only [backScan]
    rw [if_neg (by omega)]

theorem backScan_matches (t n : List Char) (j i : Nat) :
    ∀ (m k l : Nat),
      (∀ u, u < m → k - u > j ∧ l - u > i ∧ cAt t (k - u) = cAt n (l - u)) →
      backScan t n j i k l = backScan t n j i (k - m) (l - m) := by
  intro m
  induction m with
  | zero =>
    intro k l _
    rfl
  | succ m2 ih =>
    intro k l hcond
    obtain ⟨hkj, hli, hch⟩ := hcond 0 (by omega)
    simp only [Nat.sub_zero] at hkj hli hch
    have hk1 : k = (k - 1) + 1 := by omega
    rw [hk1]
    simp only [backScan]
    rw [if_pos ⟨by omega, by omega, by rw [Nat.succ_eq_add_one, ← hk1]; exact hch⟩]
    rw [ih (k - 1) (l - 1) (fun u hu => by
      obtain ⟨c1, c2, c3⟩ := hcond (u + 1) (by omega)
      refine ⟨by omega, by omega, ?_⟩
      have e1 : k - 1 - u = k - (u + 1) := by omega
      have e2 : l - 1 - u = l - (u + 1) := by omega
      rw [e1, e2]
      exact c3)]
    have e1 : k - 1 - m2 = k - 1 + 1 - (m2 + 1) := by omega
    have e2 : l - 1 - m2 = l - (m2 + 1) := by omega
    rw [e1, e2]

theorem backScan_spec (t n : List Char) (j i : Nat) :
    ∀ (k l : Nat),
      (backScan t n j i k l).1 ≤ k ∧
      k - (backScan t n j i k l).1 = l - (backScan t n j i k l).2 ∧
      (backScan t n j i k l).2 ≤ l ∧
      (∀ u, (backScan t n j i k l).1 < u → u ≤ k →
        cAt t u = cAt n (l - (k - u))) ∧
      ¬ ((backScan t n j i k l).1 > j ∧ (backScan t n j i k l).2 > i ∧
         cAt t (backScan t n j i k l).1 = cAt n (backScan t n j i k l).2) ∧
      (j ≤ k → j ≤ (backScan t n j i k l).1) := by
  intro k
  induction k with
  | zero =>
    intro l
    simp only [backScan]
    refine ⟨le_refl _, by omega, le_refl _, ?_, ?_, ?_⟩
    · intro u hu hu2
      omega
    · rintro ⟨hc, _, _⟩
      omega
    · intro h
      omega
  | succ k2 ih =>
    intro l
    by_cases hc : Nat.succ k2 > j ∧ l > i ∧ cAt t (Nat.succ k2) = cAt n l
    · have hstep : backScan t n j i (Nat.succ k2) l = backScan t n j i k2 (l - 1) := by
        simp only [backScan]
        rw [if_pos hc]
      rw [hstep]
      obtain ⟨s1, s2, s3, s4, s5, s6⟩ := ih (l - 1)
      obtain ⟨hc1, hc2, hc3⟩ := hc
      refine ⟨by omega, by omega, by omega, ?_, s5, by omega⟩
      intro u hu hu2
      by_cases hul : u = k2 + 1
      · subst hul
        have : l - (k2 + 1 - (k2 + 1)) = l := by omega
        rw [this]
        exact hc3
      · have hle : u ≤ k2 := by omega
        have := s4 u hu hle
        have e1 : l - 1 - (k2 - u) = l - (k2 + 1 - u) := by omega
        rw [e1] at this
        exact this
    · have hstep : backScan t n j i (Nat.succ k2) l = (Nat.succ k2, l) := by
        simp only [backScan]
        rw [if_neg hc]
      rw [hstep]
      refine ⟨le_refl _, by omega, le_refl _, ?_, hc, by omega⟩
      intro u hu hu2
      omega

theorem cAt_cons_zero (c : Char) (cs : List Char) : cAt (c :: cs) 0 = c := rfl

theorem cAt_cons_succ (c : Char) (cs : List Char) (m : Nat) :
    cAt (c :: cs) (m + 1) = cAt cs m := rfl

theorem takeWhile_append_all (p : Char → Bool) (a b : List Char)
    (h : ∀ c ∈ a, p c = true) :
    (a ++ b).takeWhile p = a ++ b.takeWhile p := by
  induction a with
  | nil => simp
  | cons c cs ih =>
    rw [List.cons_append, List.takeWhile_cons, if_pos (h c (by simp)),
      ih (fun c2 hc2 => h c2 (by simp [hc2])), List.cons_append]

theorem takeWhile_nil_of_head (p : Char → Bool) (b : List Char)
    (h : b = [] ∨ p (cAt b 0) = false) :
    b.takeWhile p = [] := by
  cases b with
  | nil => rfl
  | cons c cs =>
    rcases h with h | h
    · exact absurd h (by simp)
    · rw [cAt_cons_zero] at h
      simp [List.takeWhile_cons, h]

theorem takeWhile_length_eq (p : Char → Bool) (hnul : p (Char.ofNat 0) = false) :
    ∀ (l : List Char) (m : Nat),
      (∀ v, v < m → p (cAt l v) = true) → p (cAt l m) = false →
      (l.takeWhile p).length = m := by
  intro l
  induction l with
  | nil =>
    intro m hall _
    by_cases hm : m = 0
    · simp [hm]
    · have := hall 0 (by omega)
      rw [cAt_ge_len _ _ (by simp)] at this
      rw [hnul] at this
      exact absurd this (by simp)
  | cons c cs ih =>
    intro m hall hstop
    cases m with
    | zero =>
      rw [cAt_cons_zero] at hstop
      simp [List.takeWhile_cons, hstop]
    | succ m2 =>
      have hc := hall 0 (by omega)
      rw [cAt_cons_zero] at hc
      rw [List.takeWhile_cons, if_pos hc, List.length_cons]
      have := ih m2 (fun v hv => by
        have := hall (v + 1) (by omega)
        rwa [cAt_cons_succ] at this) (by
        rwa [cAt_cons_succ] at hstop)
      omega

theorem list_eq_of_cAt (a b : List Char) (hlen : a.length = b.length)
    (h : ∀ m, m < a.length → cAt a m = cAt b m) : a = b := by
  induction a generalizing b with
  | nil =>
    cases b with
    | nil => rfl
    | cons x xs => simp at hlen
  | cons c cs ih =>
    cases b with
    | nil => simp at hlen
    | cons x xs =>
      have h0 := h 0 (by simp)
      rw [cAt_cons_zero, cAt_cons_zero] at h0
      have htail : cs = xs := by
        refine ih xs (by simpa using hlen) (fun m hm => ?_)
        have := h (m + 1) (by simp; omega)
        rwa [cAt_cons_succ, cAt_cons_succ] at this
      rw [h0, htail]

theorem leadsWith_of_cAt (p l : List Char) (hlen : p.length ≤ l.length)
    (h : ∀ m, m < p.length → cAt l m = cAt p m) : leadsWith p l = true := by
  induction p generalizing l with
  | nil => rfl
  | cons c cs ih =>
    cases l with
    | nil => simp at hlen
    | cons x xs =>
      have h0 := (h 0 (by simp)).symm
      rw [cAt_cons_zero, cAt_cons_zero] at h0
      simp only [leadsWith, Bool.and_eq_true, decide_eq_true_eq]
      refine ⟨h0, ih xs (by simpa using hlen) (fun m hm => ?_)⟩
      have := h (m + 1) (by simp; omega)
      rwa [cAt_cons_succ, cAt_cons_succ] at this

theorem nextindex_subst_core (P S d : List Char) (r : Nat) (e : Int)
    (_hP : ∀ c ∈ P, c ≠ '#') (hS : ∀ c ∈ S, c ≠ '#') (hr : 1 ≤ r)
    (hd : d ≠ []) (hdig : ∀ c ∈ d, isdigitC c = true)
    (hSd : S = [] ∨ isdigitC (cAt S 0) = false) :
    restart_nextindex (P ++ List.replicate r '#' ++ S) (P ++ d ++ S) e
      = if (digitsVal d : Int) > intMaxC - 1 then e
        else (digitsVal d : Int) + 1 := by
  cases d with
  | nil => exact absurd rfl hd
  | cons d0 dt =>
  have hd0 : isdigitC d0 = true := hdig d0 (by simp)
  have hne : '#' ≠ d0 := by
    intro h
    rw [← h] at hd0
    exact absurd hd0 (by decide)
  have hrep : List.replicate r '#' = '#' :: List.replicate (r - 1) '#' := by
    conv_lhs => rw [show r = (r - 1) + 1 by omega]
    rw [List.replicate_succ]
  have hTL : (P ++ List.replicate r '#' ++ S).length = P.length + r + S.length := by
    simp
    omega
  have hNL : (P ++ (d0 :: dt) ++ S).length
      = P.length + (dt.length + 1) + S.length := by
    simp
    omega
  have hi : scanEq (P ++ List.replicate r '#' ++ S) (P ++ (d0 :: dt) ++ S)
      = P.length := by
    rw [List.append_assoc, List.append_assoc, scanEq_append, hrep,
      List.cons_append, List.cons_append, scanEq_cons_ne _ _ _ _ hne]
    omega
  unfold restart_nextindex
  rw [hi]
  rw [if_neg (by omega)]
  have hT2 : cAt (P ++ List.replicate r '#' ++ S) P.length = '#' := by
    rw [List.append_assoc, cAt_append_ge _ _ _ (le_refl _), Nat.sub_self, hrep,
      List.cons_append, cAt_cons_zero]
  have hN2 : cAt (P ++ (d0 :: dt) ++ S) P.length = d0 := by
    rw [List.append_assoc, cAt_append_ge _ _ _ (le_refl _), Nat.sub_self,
      List.cons_append, cAt_cons_zero]
  rw [if_neg (fun h => h hT2)]
  rw [if_neg (by rw [hN2]; simp [hd0])]
  have hj : lastHashFrom (P ++ List.replicate r '#' ++ S) P.length
      = P.length + r - 1 :=
    lastHashFrom_run P S r P.length hS hr (le_refl _) (by omega)
  rw [hj, hTL, hNL]
  have hback : backScan (P ++ List.replicate r '#' ++ S) (P ++ (d0 :: dt) ++ S)
      (P.length + r - 1) P.length
      (P.length + r + S.length) (P.length + (dt.length + 1) + S.length)
      = (P.length + r - 1, P.length + dt.length) := by
    have hrun := backScan_matches (P ++ List.replicate r '#' ++ S)
      (P ++ (d0 :: dt) ++ S) (P.length + r - 1) P.length (S.length + 1)
      (P.length + r + S.length) (P.length + (dt.length + 1) + S.length) ?_
    · rw [hrun]
      have e1 : P.length + r + S.length - (S.length + 1) = P.length + r - 1 := by
        omega
      have e2 : P.length + (dt.length + 1) + S.length - (S.length + 1)
          = P.length + dt.length := by omega
      rw [e1, e2, backScan_stop]
    · intro u hu
      refine ⟨by omega, by omega, ?_⟩
      cases u with
      | zero =>
        rw [Nat.sub_zero, Nat.sub_zero, cAt_ge_len _ _ (by rw [hTL]),
          cAt_ge_len _ _ (by rw [hNL])]
      | succ u2 =>
        have hu2 : u2 < S.length := by omega
        have eT : P.length + r + S.length - (u2 + 1)
            = (P ++ List.replicate r '#').length + (S.length - (u2 + 1)) := by
          simp
          omega
        have eN : P.length + (dt.length + 1) + S.length - (u2 + 1)
            = (P ++ (d0 :: dt)).length + (S.length - (u2 + 1)) := by
          simp
          omega
        rw [List.append_assoc, List.append_assoc] at *
        rw [show P ++ (List.replicate r '#' ++ S)
            = (P ++ List.replicate r '#') ++ S by rw [List.append_assoc],
          show P ++ ((d0 :: dt) ++ S) = (P ++ (d0 :: dt)) ++ S by
            rw [List.append_assoc],
          eT, eN, cAt_append_ge _ _ _ (by omega), cAt_append_ge _ _ _ (by omega)]
        congr 1 <;> omega
  simp only [hback]
  have hT4 : cAt (P ++ List.replicate r '#' ++ S) (P.length + r - 1) = '#' := by
    rw [show P ++ List.replicate r '#' ++ S
        = (P ++ List.replicate r '#') ++ S from rfl,
      cAt_append_lt _ _ _ (by simp; omega),
      cAt_append_ge _ _ _ (by omega), cAt_replicate _ _ _ (by omega)]
  rw [if_neg (by rw [hT4]; exact fun h => h rfl)]
  have hdrop : (P ++ (d0 :: dt) ++ S).drop P.length = (d0 :: dt) ++ S := by
    rw [List.append_assoc]
    exact drop_append_len _ _ _ rfl
  have hds : ((P ++ (d0 :: dt) ++ S).drop P.length).takeWhile isdigitC
      = d0 :: dt := by
    rw [hdrop, takeWhile_append_all _ _ _ hdig,
      takeWhile_nil_of_head _ _ hSd, List.append_nil]
  rw [hds]
  rw [if_neg (by simp; omega)]
  by_cases hov : (digitsVal (d0 :: dt) : Int) > intMaxC - 1
  · rw [if_pos hov, if_pos hov]
  · rw [if_neg hov, if_neg hov]
    rw [if_neg ?_]
    · intro hcon
      apply hcon
      rw [List.all_eq_true]
      intro m hm
      rw [List.mem_range'_1] at hm
      have hhm : cAt (P ++ List.replicate r '#' ++ S) m = '#' := by
        rw [show P ++ List.replicate r '#' ++ S
            = (P ++ List.replicate r '#') ++ S from rfl,
          cAt_append_lt _ _ _ (by simp; omega),
          cAt_append_ge _ _ _ (by omega), cAt_replicate _ _ _ (by omega)]
      have hhm2 : cAt (P ++ (List.replicate r '#' ++ S)) m = '#' := by
        rw [← List.append_assoc]
        exact hhm
      simp [hhm2]

theorem cAt_mem (l : List Char) (m : Nat) (h : m < l.length) : cAt l m ∈ l := by
  unfold cAt
  rw [List.getD_eq_getElem?_getD, List.getElem?_eq_getElem h]
  simp

theorem nextindex_nonmatch_core (P S name : List Char) (r : Nat) (e : Int)
    (hP : ∀ c ∈ P, c ≠ '#') (hS : ∀ c ∈ S, c ≠ '#') (hr : 1 ≤ r)
    (hnm : relaxedMatchB P r S name = false)
    (hnp : leadsWith (P ++ List.replicate r '#' ++ S) name = false) :
    restart_nextindex (P ++ List.replicate r '#' ++ S) name e = 0 := by
  obtain ⟨hs1, hs2, hs3, hs4⟩ :=
    scanEq_spec (P ++ List.replicate r '#' ++ S) name
  have hTL : (P ++ List.replicate r '#' ++ S).length = P.length + r + S.length := by
    simp
    omega
  unfold restart_nextindex
  by_cases hA : (P ++ List.replicate r '#' ++ S).length
      ≤ scanEq (P ++ List.replicate r '#' ++ S) name
  · exfalso
    have hlw : leadsWith (P ++ List.replicate r '#' ++ S) name = true := by
      refine leadsWith_of_cAt _ _ (by omega) (fun m hm => ?_)
      exact (hs3 m (by omega)).symm
    rw [hlw] at hnp
    exact absurd hnp (by simp)
  · rw [if_neg hA]
    by_cases hB : cAt (P ++ List.replicate r '#' ++ S)
        (scanEq (P ++ List.replicate r '#' ++ S) name) = '#'
    case neg => rw [if_pos hB]
    case pos =>
    rw [if_neg (fun h => h hB)]
    by_cases hD : isdigitC (cAt name (scanEq (P ++ List.replicate r '#' ++ S) name))
        = true
    case neg => rw [if_pos hD]
    case pos =>
    rw [if_neg (fun h => h hD)]
    -- the scan stops inside the '#' run
    have hiP : P.length ≤ scanEq (P ++ List.replicate r '#' ++ S) name := by
      by_contra hcon
      push_neg at hcon
      have hc : cAt (P ++ List.replicate r '#' ++ S)
          (scanEq (P ++ List.replicate r '#' ++ S) name)
          = cAt P (scanEq (P ++ List.replicate r '#' ++ S) name) := by
        rw [show P ++ List.replicate r '#' ++ S
            = (P ++ List.replicate r '#') ++ S from rfl,
          cAt_append_lt _ _ _ (by simp only [List.length_append, List.length_replicate]; omega), cAt_append_lt _ _ _ hcon]
      rw [hc] at hB
      exact hP _ (cAt_mem P _ hcon) hB
    have hir : scanEq (P ++ List.replicate r '#' ++ S) name < P.length + r := by
      by_contra hcon
      push_neg at hcon
      have hc : cAt (P ++ List.replicate r '#' ++ S)
          (scanEq (P ++ List.replicate r '#' ++ S) name)
          = cAt S (scanEq (P ++ List.replicate r '#' ++ S) name
              - (P.length + r)) := by
        rw [show P ++ List.replicate r '#' ++ S
            = (P ++ List.replicate r '#') ++ S from rfl,
          cAt_append_ge _ _ _ (by simp only [List.length_append, List.length_replicate]; omega)]
        simp only [List.length_append, List.length_replicate]
      rw [hc] at hB
      have hmem : scanEq (P ++ List.replicate r '#' ++ S) name
          - (P.length + r) < S.length := by omega
      exact hS _ (cAt_mem S _ hmem) hB
    -- the scan stops strictly inside the name (its character is a digit)
    have hiN : scanEq (P ++ List.replicate r '#' ++ S) name < name.length := by
      by_contra hcon
      push_neg at hcon
      rw [cAt_ge_len name _ hcon] at hD
      exact absurd hD (by decide)
    have hj : lastHashFrom (P ++ List.replicate r '#' ++ S)
        (scanEq (P ++ List.replicate r '#' ++ S) name) = P.length + r - 1 :=
      lastHashFrom_run P S r _ hS hr hiP hir
    rw [hj, hTL]
    obtain ⟨b1, b2, b3, b4, b5, b6⟩ := backScan_spec (P ++ List.replicate r '#' ++ S)
      name (P.length + r - 1) (scanEq (P ++ List.replicate r '#' ++ S) name)
      (P.length + r + S.length) name.length
    have hb6 := b6 (by omega)
    by_cases hK : (backScan (P ++ List.replicate r '#' ++ S) name (P.length + r - 1)
        (scanEq (P ++ List.replicate r '#' ++ S) name)
        (P.length + r + S.length) name.length).1 = P.length + r - 1
    case neg =>
      -- the backward scan stopped past the final '#': the template character
      -- there is a suffix character or the terminator, never '#'
      have hgt : (backScan (P ++ List.replicate r '#' ++ S) name (P.length + r - 1)
          (scanEq (P ++ List.replicate r '#' ++ S) name)
          (P.length + r + S.length) name.length).1 > P.length + r - 1 := by omega
      rw [if_pos ?_]
      by_cases hend : (backScan (P ++ List.replicate r '#' ++ S) name
          (P.length + r - 1) (scanEq (P ++ List.replicate r '#' ++ S) name)
          (P.length + r + S.length) name.length).1
          = P.length + r + S.length
      · rw [hend, ← hTL, cAt_ge_len _ _ (le_refl _)]
        decide
      · have hlt : (backScan (P ++ List.replicate r '#' ++ S) name
            (P.length + r - 1) (scanEq (P ++ List.replicate r '#' ++ S) name)
            (P.length + r + S.length) name.length).1 < P.length + r + S.length := by
          omega
        have hc : cAt (P ++ List.replicate r '#' ++ S)
            (backScan (P ++ List.replicate r '#' ++ S) name (P.length + r - 1)
              (scanEq (P ++ List.replicate r '#' ++ S) name)
              (P.length + r + S.length) name.length).1
            = cAt S ((backScan (P ++ List.replicate r '#' ++ S) name
                (P.length + r - 1) (scanEq (P ++ List.replicate r '#' ++ S) name)
                (P.length + r + S.length) name.length).1 - (P.length + r)) := by
          rw [show P ++ List.replicate r '#' ++ S
              = (P ++ List.replicate r '#') ++ S from rfl,
            cAt_append_ge _ _ _ (by simp only [List.length_append, List.length_replicate]; omega)]
          simp only [List.length_append, List.length_replicate]
        rw [hc]
        have hmem : (backScan (P ++ List.replicate r '#' ++ S) name
            (P.length + r - 1) (scanEq (P ++ List.replicate r '#' ++ S) name)
            (P.length + r + S.length) name.length).1 - (P.length + r)
            < S.length := by omega
        exact hS _ (cAt_mem S _ hmem)
    case pos =>
    simp only []
    rw [hK]
    have hT4 : cAt (P ++ List.replicate r '#' ++ S) (P.length + r - 1) = '#' := by
      rw [show P ++ List.replicate r '#' ++ S
          = (P ++ List.replicate r '#') ++ S from rfl,
        cAt_append_lt _ _ _ (by simp only [List.length_append, List.length_replicate]; omega),
        cAt_append_ge _ _ _ (by omega), cAt_replicate _ _ _ (by omega)]
    rw [if_neg (fun h => h hT4)]
    by_cases hE : scanEq (P ++ List.replicate r '#' ++ S) name
        + ((name.drop (scanEq (P ++ List.replicate r '#' ++ S) name)).takeWhile
            isdigitC).length
        = (backScan (P ++ List.replicate r '#' ++ S) name (P.length + r - 1)
            (scanEq (P ++ List.replicate r '#' ++ S) name)
            (P.length + r + S.length) name.length).2 + 1
    case neg => rw [if_pos hE]
    case pos =>
    exfalso
    -- every check passed: reconstruct the relaxed match, contradicting hnm
    rw [hK] at b2 b5
    have hl2 : (backScan (P ++ List.replicate r '#' ++ S) name (P.length + r - 1)
        (scanEq (P ++ List.replicate r '#' ++ S) name)
        (P.length + r + S.length) name.length).2
        = name.length - (S.length + 1) := by omega
    have hlen1 : S.length + 1 ≤ name.length := by omega
    rw [hl2] at hE
    -- the digits run exactly covers positions [i, l']
    have hds_len : ((name.drop (scanEq (P ++ List.replicate r '#' ++ S) name)).takeWhile
        isdigitC).length = name.length - S.length
          - scanEq (P ++ List.replicate r '#' ++ S) name := by omega
    -- pieces of the relaxed match
    have m1 : leadsWith P name = true := by
      refine leadsWith_of_cAt _ _ (by omega) (fun m hm => ?_)
      rw [← hs3 m (by omega), show P ++ List.replicate r '#' ++ S
          = (P ++ List.replicate r '#') ++ S from rfl,
        cAt_append_lt _ _ _ (by simp only [List.length_append, List.length_replicate]; omega), cAt_append_lt _ _ _ hm]
    have m2 : ((name.drop P.length).takeWhile (fun c => c = '#')).length
        = scanEq (P ++ List.replicate r '#' ++ S) name - P.length := by
      refine takeWhile_length_eq _ (by decide) _ _ (fun v hv => ?_) ?_
      · rw [cAt_drop]
        have hlt2 : P.length + v < scanEq (P ++ List.replicate r '#' ++ S) name := by
          omega
        rw [← hs3 _ hlt2]
        have : cAt (P ++ List.replicate r '#' ++ S) (P.length + v) = '#' := by
          rw [show P ++ List.replicate r '#' ++ S
              = (P ++ List.replicate r '#') ++ S from rfl,
            cAt_append_lt _ _ _ (by simp only [List.length_append, List.length_replicate]; omega),
            cAt_append_ge _ _ _ (by omega), cAt_replicate _ _ _ (by omega)]
        rw [this]
        decide
      · rw [cAt_drop]
        have : P.length + (scanEq (P ++ List.replicate r '#' ++ S) name - P.length)
            = scanEq (P ++ List.replicate r '#' ++ S) name := by omega
        rw [this]
        by_cases hh : cAt name (scanEq (P ++ List.replicate r '#' ++ S) name) = '#'
        · rw [hh] at hD
          exact absurd hD (by decide)
        · exact decide_eq_false hh
    have m4 : name.drop (name.length - S.length) = S := by
      refine list_eq_of_cAt _ _ (by simp only [List.length_drop]; omega) (fun v hv => ?_)
      have hvS : v < S.length := by
        have : (name.drop (name.length - S.length)).length
            = name.length - (name.length - S.length) := by simp
        omega
      rw [cAt_drop]
      have hb4 := b4 (P.length + r + v) (by omega) (by omega)
      have eL : cAt (P ++ List.replicate r '#' ++ S) (P.length + r + v)
          = cAt S v := by
        rw [show P ++ List.replicate r '#' ++ S
            = (P ++ List.replicate r '#') ++ S from rfl,
          cAt_append_ge _ _ _ (by simp only [List.length_append, List.length_replicate]; omega)]
        simp only [List.length_append, List.length_replicate]
        congr 1
        omega
      have eI : name.length - (P.length + r + S.length - (P.length + r + v))
          = name.length - S.length + v := by omega
      rw [eL, eI] at hb4
      rw [← hb4]
    -- the digit run is nonempty
    have m3 : ((name.drop (scanEq (P ++ List.replicate r '#' ++ S) name)).takeWhile
        isdigitC) ≠ [] := by
      have hlen_drop : 0 < (name.drop (scanEq (P ++ List.replicate r '#' ++ S)
          name)).length := by simp only [List.length_drop]; omega
      cases hdn : name.drop (scanEq (P ++ List.replicate r '#' ++ S) name) with
      | nil => rw [hdn] at hlen_drop; simp at hlen_drop
      | cons c0 cr =>
        have hc0 : c0 = cAt name (scanEq (P ++ List.replicate r '#' ++ S) name) := by
          have := cAt_drop name (scanEq (P ++ List.replicate r '#' ++ S) name) 0
          rw [hdn, cAt_cons_zero, Nat.add_zero] at this
          exact this
        rw [List.takeWhile_cons, if_pos (by rw [hc0]; exact hD)]
        simp
    -- assemble relaxedMatchB = true
    have : relaxedMatchB P r S name = true := by
      unfold relaxedMatchB
      rw [m2]
      simp only []
      have hidx : P.length + (scanEq (P ++ List.replicate r '#' ++ S) name
          - P.length) = scanEq (P ++ List.replicate r '#' ++ S) name := by omega
      rw [hidx]
      have hidx2 : scanEq (P ++ List.replicate r '#' ++ S) name
          + ((name.drop (scanEq (P ++ List.replicate r '#' ++ S) name)).takeWhile
              isdigitC).length = name.length - S.length := by omega
      rw [hidx2, m4]
      simp only [m1, Bool.true_and, Bool.and_eq_true, decide_eq_true_eq]
      exact ⟨⟨by omega, m3⟩, trivial⟩
    rw [this] at hnm
    exact absurd hnm (by simp)

/-! ## Claim theorems: next_index against a single-run template -/

/-- C4 counterexample: two failures of the claim. (i) For template `"a#5"`
(one `'#'` run, suffix beginning with the digit `'5'`) and digit string
`"7"`, the substitution instance is `"a75"`, yet `restart_nextindex` returns
`0`, not `7 + 1 = 8`: the forward scan swallows the suffix digit into the
index field and the endpoint check fails. (ii) The name `"chk###"` does not
match the template `"chk###"` (it is no substitution instance), so the claim
demands `0`, but the code returns `errval` because the forward scan exhausts
the template. -/
theorem restart_nextindex_subst_cex :
    hashSubstitute "a#5".toList "7".toList = "a75".toList ∧
    restart_nextindex "a#5".toList "a75".toList (-1) = 0 ∧
    restart_nextindex "chk###".toList "chk###".toList (-1) = -1 := by
  decide

/-- C4 (amended): over a template `P ++ '#'^r ++ S` with hash-free prefix `P`
and suffix `S` and `r ≥ 1`: (a) on the substitution instance `P ++ d ++ S`
(`d` a nonempty digit string), provided the suffix is empty or does not begin
with a digit, `restart_nextindex` returns `digitsVal d + 1`, or `errval` when
`digitsVal d` exceeds `INT_MAX - 1`; (b) a name that is neither a relaxed
match (template text up to a point strictly inside the `'#'` run, then
digits, then exactly the suffix) nor an extension of the template's full
literal text yields `0`. -/
theorem restart_nextindex_amended (P S d name : List Char) (r : Nat) (e : Int)
    (hP : ∀ c ∈ P, c ≠ '#') (hS : ∀ c ∈ S, c ≠ '#') (hr : 1 ≤ r)
    (hd : d ≠ []) (hdig : ∀ c ∈ d, isdigitC c = true)
    (hSd : S = [] ∨ isdigitC (cAt S 0) = false) :
    (restart_nextindex (P ++ List.replicate r '#' ++ S) (P ++ d ++ S) e
       = if (digitsVal d : Int) > intMaxC - 1 then e
         else (digitsVal d : Int) + 1)
    ∧ (relaxedMatchB P r S name = false →
        leadsWith (P ++ List.replicate r '#' ++ S) name = false →
        restart_nextindex (P ++ List.replicate r '#' ++ S) name e = 0) :=
  ⟨nextindex_subst_core P S d r e hP hS hr hd hdig hSd,
   fun hnm hnp => nextindex_nonmatch_core P S name r e hP hS hr hnm hnp⟩

/-- C4 witness: template `"chk###"` as `"chk" ++ '#'^3 ++ ""`; the
substitution instance for `d = "042"` parses to `42` and the call returns
`43`, while the unrelated name `"other"` yields `0`. -/
theorem restart_nextindex_amended_witness :
    restart_nextindex ("chk".toList ++ List.replicate 3 '#' ++ [])
      ("chk".toList ++ "042".toList ++ []) (-1) = 43 ∧
    restart_nextindex ("chk".toList ++ List.replicate 3 '#' ++ [])
      "other".toList (-1) = 0 := by
  have h := restart_nextindex_amended "chk".toList [] "042".toList
    "other".toList 3 (-1) (by decide) (by decide) (by decide) (by decide)
    (by decide) (Or.inl rfl)
  refine ⟨?_, h.2 (by decide) (by decide)⟩
  rw [h.1]
  decide
